import Mathlib

/-!
Shallow embedding of the WalletData_calculator core in Lean 4.

Amounts and prices are modelled as rationals (the source uses Python
`Decimal`/`float`); timestamps are integers (seconds since epoch).
Remote collaborators (yfinance, Pump Fun, Jupiter, the RPC node and the
classifier) are modelled as explicit oracle functions, so every embedded
operation is a pure, executable Lean function.
-/

/-! ## Configuration (config.py) -/

def SOLANA_ADDRESSES : List String :=
  ["So11111111111111111111111111111111111111112",
   "So11111111111111111111111111111111111111111"]

def EXCLUDED_TOKENS : List String :=
  ["EPjFWdd5AufqSSqeM2qN1xzybapC8G4wEGGkZwyTDt1v",
   "Es9vMFrzaCERmJfrF4H2FYD4KCoNkY11McCe8BenwNYB",
   "7vfCXTUXx5WJV5JADk17DUJ4ksgau7utNKj4b963voxs"]

def MAX_RETRIES : Nat := 3

def EARLY_DETECTION_COUNT : Nat := 80

def BOT_THRESHOLD : ℚ := 3 / 4

/-! ## Data model: metrics_calculator.py -/

/-- `TokenMetrics` dataclass of metrics_calculator.py. -/
structure TokenMetrics where
  realized_pnl : ℚ := 0
  unrealized_pnl : ℚ := 0
  usd_invested : ℚ := 0
  usd_withdrawn : ℚ := 0
  balance : ℚ := 0
  trade_count : Nat := 0
  first_trade_date : Option ℤ := none
  last_trade_date : Option ℤ := none
deriving Repr, DecidableEq

/-- A token leg of a swap: one `{'amount': ..., 'symbol': ...}` record. -/
structure TokenData where
  amount : ℚ
  symbol : String
deriving Repr, DecidableEq

/-- A swap record as produced by `_process_swap` in get_parsed_transactions.py. -/
structure Swap where
  timestamp : Option ℤ
  tokens_in : List TokenData
  tokens_out : List TokenData
deriving Repr, DecidableEq

/-- The per-token ledger `self.token_metrics : Dict[str, TokenMetrics]`. -/
def Ledger : Type := String → Option TokenMetrics

def emptyLedger : Ledger := fun _ => none

def Ledger.set (L : Ledger) (sym : String) (m : TokenMetrics) : Ledger :=
  fun s => if s = sym then some m else L s

/-- The price_service collaborator as seen by MetricsCalculator: the three
public lookup methods that `PriceService` (price_service.py) actually defines,
each an oracle returning `some price` or `none` (Python `None`).  There is no
`get_token_price` method on `PriceService`. -/
structure PriceServiceIface where
  getSolPrice : ℤ → Option ℚ
  getTokenPriceInSol : String → ℤ → Option ℚ
  getTokenPriceInUsd : String → ℤ → Option ℚ

/-- `MetricsCalculator._calculate_token_value`: USD value of `amount` of
`symbol` at `timestamp`, `none` when no price can be resolved. -/
def calculateTokenValue (ps : PriceServiceIface) (symbol : String) (amount : ℚ)
    (timestamp : ℤ) : Option ℚ :=
  if symbol ∈ SOLANA_ADDRESSES then
    match ps.getSolPrice timestamp with
    | none => none
    | some sp => some (amount * sp)
  else
    match ps.getSolPrice timestamp with
    | none => none
    | some sp =>
      match ps.getTokenPriceInSol symbol timestamp with
      | some tpsol => some (amount * tpsol * sp)
      | none =>
        match ps.getTokenPriceInUsd symbol timestamp with
        | some tpusd => some (amount * tpusd)
        | none => none

/-- `MetricsCalculator._process_token_swap`.  Mirrors the source statement by
statement: the entry is created (if absent) with both trade dates set to
`timestamp`; then `last_trade_date` and `trade_count` are updated; only after
that is the USD value resolved, and on failure the function returns with the
entry in that intermediate state. -/
def processTokenSwap (ps : PriceServiceIface) (L : Ledger) (td : TokenData)
    (isInput : Bool) (timestamp : ℤ) (solPrice : ℚ) : Ledger :=
  let symbol := td.symbol
  let amount := td.amount
  let m0 : TokenMetrics :=
    match L symbol with
    | some m => m
    | none => { first_trade_date := some timestamp, last_trade_date := some timestamp }
  let m1 := { m0 with last_trade_date := some timestamp, trade_count := m0.trade_count + 1 }
  let usdValue : Option ℚ :=
    if symbol ∈ SOLANA_ADDRESSES then some (amount * solPrice)
    else calculateTokenValue ps symbol amount timestamp
  match usdValue with
  | none => L.set symbol m1
  | some v =>
    if isInput then
      L.set symbol { m1 with usd_invested := m1.usd_invested + v, balance := m1.balance - amount }
    else
      L.set symbol { m1 with usd_withdrawn := m1.usd_withdrawn + v, balance := m1.balance + amount }

/-- `MetricsCalculator.process_swap`: skips swaps with a falsy timestamp or a
missing SOL price, otherwise processes the input legs then the output legs. -/
def processSwap (ps : PriceServiceIface) (L : Ledger) (swap : Swap) : Ledger :=
  match swap.timestamp with
  | none => L
  | some t =>
    if t = 0 then L
    else
      match ps.getSolPrice t with
      | none => L
      | some sp =>
        let l1 := swap.tokens_in.foldl (fun l td => processTokenSwap ps l td true t sp) L
        swap.tokens_out.foldl (fun l td => processTokenSwap ps l td false t sp) l1

/-- `MetricsCalculator.calculate_realized_pnl` (one pass over the ledger). -/
def calculateRealizedPnl (L : Ledger) : Ledger := fun s =>
  (L s).map fun m =>
    { m with realized_pnl :=
        if m.usd_invested > 0 ∧ m.usd_withdrawn = 0 ∧ m.balance > 0 then 0
        else if m.balance < 0 then 0
        else m.usd_withdrawn - m.usd_invested }

/-- The error with which `calculate_unrealized_pnl` aborts for a non-SOL
token with positive balance: the attribute lookup
`self.price_service.get_token_price` fails on `PriceService`. -/
def getTokenPriceAttrError : String :=
  "AttributeError: PriceService object has no attribute get_token_price"

/-- One iteration of the `calculate_unrealized_pnl` loop for the entry of
`sym`.  A non-positive balance sets `unrealized_pnl = 0` without any price
lookup; for a SOL-address symbol the SOL price is fetched and a missing price
degrades to 0; for every other symbol the source evaluates
`self.price_service.get_token_price(symbol, current_time)`, an attribute that
does not exist on `PriceService`, so Python raises `AttributeError` before any
price check — modelled as `Except.error`. -/
def unrealizedStep (ps : PriceServiceIface) (currentTime : ℤ) (sym : String)
    (m : TokenMetrics) : Except String TokenMetrics :=
  if m.balance ≤ 0 then Except.ok { m with unrealized_pnl := 0 }
  else if sym ∈ SOLANA_ADDRESSES then
    match ps.getSolPrice currentTime with
    | some p => Except.ok { m with unrealized_pnl := m.balance * p }
    | none => Except.ok { m with unrealized_pnl := 0 }
  else
    Except.error getTokenPriceAttrError

/-- `MetricsCalculator.calculate_unrealized_pnl`: the loop over the items of
`self.token_metrics` at `currentTime`.  An `AttributeError` raised by an
iteration propagates to the caller (process_wallet.py logs and re-raises it),
aborting the wallet's analysis; the dictionary entries mutated before the
raise are discarded with the run, so the model returns only the error. -/
def calculateUnrealizedPnl (ps : PriceServiceIface) (currentTime : ℤ) :
    List (String × TokenMetrics) → Except String (List (String × TokenMetrics))
  | [] => Except.ok []
  | (s, m) :: rest =>
    match unrealizedStep ps currentTime s m with
    | Except.error e => Except.error e
    | Except.ok m2 =>
      match calculateUnrealizedPnl ps currentTime rest with
      | Except.error e => Except.error e
      | Except.ok rest2 => Except.ok ((s, m2) :: rest2)

/-! ## file_utils.py and pnl_calculation.py -/

/-- `file_utils.round_to_nearest_hour`, parameterised by the current time
`now` (seconds).  `timestamp % 3600` is the floor remainder (Python `%`),
`(timestamp % 3600) / 60` is `dt.minute`. -/
def roundToNearestHour (now timestamp : ℤ) : ℤ :=
  let hourStart := timestamp - timestamp % 3600
  let rounded := if (timestamp % 3600) / 60 ≥ 30 then hourStart + 3600 else hourStart
  if rounded > now then rounded - 7200 else rounded

/-- One entry of the `pnl_tracker` dictionary of pnl_calculation.py. -/
structure PnlEntry where
  realized : ℚ := 0
  unrealized : ℚ := 0
  usd_invested : ℚ := 0
  usd_withdrawn : ℚ := 0
  balance : ℚ := 0
  trade_count : Nat := 0
  first_trade_date : ℤ
  last_trade_date : ℤ
deriving Repr, DecidableEq

/-- One CSV row consumed by `process_transaction` (amounts already divided by
their decimals). -/
structure TxRow where
  token1 : String
  token2 : String
  amount1 : ℚ
  amount2 : ℚ
  block_time : ℤ
deriving Repr, DecidableEq

def PnlTracker : Type := String → Option PnlEntry

def emptyTracker : PnlTracker := fun _ => none

def PnlTracker.set (T : PnlTracker) (tok : String) (e : PnlEntry) : PnlTracker :=
  fun s => if s = tok then some e else T s

/-- `pnl_calculation.process_transaction`.  `solPriceAt` stands for
`get_sol_price_at_time` as seen by this caller (`none` = missing price). -/
def processTransaction (now : ℤ) (solPriceAt : ℤ → Option ℚ) (T : PnlTracker)
    (row : TxRow) : PnlTracker :=
  let dt := roundToNearestHour now row.block_time
  if row.token1 ∈ EXCLUDED_TOKENS ∨ row.token2 ∈ EXCLUDED_TOKENS then T
  else if row.token1 ∉ SOLANA_ADDRESSES ∧ row.token2 ∉ SOLANA_ADDRESSES then T
  else
    match solPriceAt dt with
    | none => T
    | some sp =>
      let usdInvested : ℚ := if row.token1 ∈ SOLANA_ADDRESSES then row.amount1 * sp else 0
      let usdWithdrawn : ℚ := if row.token2 ∈ SOLANA_ADDRESSES then row.amount2 * sp else 0
      let targetToken := if row.token1 ∈ SOLANA_ADDRESSES then row.token2 else row.token1
      let e0 : PnlEntry :=
        match T targetToken with
        | some e => e
        | none => { first_trade_date := dt, last_trade_date := dt }
      let e1 : PnlEntry :=
        if row.token1 ∈ SOLANA_ADDRESSES then
          { e0 with usd_invested := e0.usd_invested + usdInvested,
                    balance := e0.balance + row.amount2 }
        else
          { e0 with usd_withdrawn := e0.usd_withdrawn + usdWithdrawn,
                    balance := e0.balance - row.amount1 }
      let e2 := { e1 with last_trade_date := dt, trade_count := e1.trade_count + 1 }
      T.set targetToken e2

/-- The realized-PnL pass of `calculate_pnl_and_generate_summary`
(pnl_calculation.py, lines 110-117). -/
def trackerRealizedPass (T : PnlTracker) : PnlTracker := fun s =>
  (T s).map fun (e : PnlEntry) =>
    { e with realized :=
        if e.usd_invested > 0 ∧ e.usd_withdrawn = 0 ∧ e.balance > 0 then 0
        else if e.balance < 0 then 0
        else e.usd_withdrawn - e.usd_invested }

/-! ## price_utils.py and price_service.py

The SOL price cache is an association list keyed by the requested timestamp
(standing for the ISO string `dt.isoformat()`, which determines and is
determined by the timestamp).  The yfinance collaborator is an oracle
`fetch : ℤ → Option ℚ` giving the close price of the one-hour candle starting
at the given time, or `none` when the result frame is empty.  Each embedded
lookup additionally returns the list of window start times for which a remote
fetch was issued, so that remote traffic is observable. -/

abbrev SolCache : Type := List (ℤ × ℚ)

def solCacheLookup (c : SolCache) (k : ℤ) : Option ℚ :=
  (c.find? (fun p => p.1 = k)).map (·.2)

/-- `price_utils.get_sol_price_at_time` with explicit fuel (`retries`).  The
Python function raises `ValueError` on exhaustion; this is modelled by
`Except.error`.  The cache write happens under the key actually fetched, which
for a retry is the stepped-back hour, exactly as in the source. -/
def getSolPriceAtTime (fetch : ℤ → Option ℚ) : Nat → SolCache → ℤ →
    Except String ℚ × SolCache × List ℤ
  | retries, cache, dt =>
    match solCacheLookup cache dt with
    | some p => (Except.ok p, cache, [])
    | none =>
      match fetch dt with
      | some price => (Except.ok price, (dt, price) :: cache, [dt])
      | none =>
        match retries with
        | 0 => (Except.error "Failed to retrieve SOL price", cache, [dt])
        | r + 1 =>
          let rec0 := getSolPriceAtTime fetch r cache (dt - 3600)
          (rec0.1, rec0.2.1, dt :: rec0.2.2)

/-- First successful fetch over a list of window start times, together with
the windows actually tried (in order). -/
def fetchFirst (fetch : ℤ → Option ℚ) : List ℤ → Option ℚ × List ℤ
  | [] => (none, [])
  | h :: rest =>
    match fetch h with
    | some p => (some p, [h])
    | none =>
      let r := fetchFirst fetch rest
      (r.1, h :: r.2)

/-- `PriceService.get_sol_price`: cache check on the raw timestamp key, then a
fetch at `dt`, then `for i in range(1, MAX_RETRIES)` fetches at `dt - i` hours;
any success is cached under the original key; exhaustion returns `none`. -/
def getSolPrice (fetch : ℤ → Option ℚ) (maxRetries : Nat) (cache : SolCache)
    (timestamp : ℤ) : Option ℚ × SolCache × List ℤ :=
  match solCacheLookup cache timestamp with
  | some p => (some p, cache, [])
  | none =>
    let hours := timestamp ::
      (List.range' 1 (maxRetries - 1)).map (fun (i : ℕ) => timestamp - 3600 * (i : ℤ))
    match fetchFirst fetch hours with
    | (some p, tried) => (some p, (timestamp, p) :: cache, tried)
    | (none, tried) => (none, cache, tried)

/-- The `token_sol` cache of PriceService, keyed by `f"{token}_{timestamp}"`. -/
abbrev TokenSolCache : Type := List ((String × ℤ) × ℚ)

def tokenSolLookup (c : TokenSolCache) (token : String) (ts : ℤ) : Option ℚ :=
  (c.find? (fun p => p.1 = (token, ts))).map (·.2)

/-- The Pump Fun and Jupiter collaborators of PriceService, as oracles
(`none` = request failed or no data). -/
structure TokenApis where
  pumpFun : String → Option ℚ
  jupiter : String → Option ℚ

/-- `PriceService.get_token_price_in_sol`.  `solPriceFn` stands for the inner
`self.get_sol_price` call.  The returned `Nat` counts the remote
collaborator calls issued (Pump Fun, Jupiter, SOL price). -/
def getTokenPriceInSol (apis : TokenApis) (solPriceFn : ℤ → Option ℚ)
    (cache : TokenSolCache) (token : String) (ts : ℤ) :
    Option ℚ × TokenSolCache × Nat :=
  match tokenSolLookup cache token ts with
  | some p => (some p, cache, 0)
  | none =>
    match apis.pumpFun token with
    | some p => (some p, ((token, ts), p) :: cache, 1)
    | none =>
      match apis.jupiter token with
      | some jp =>
        match solPriceFn ts with
        | some sp =>
          if sp = 0 then (none, cache, 3)
          else (some (jp / sp), ((token, ts), jp / sp) :: cache, 3)
        | none => (none, cache, 3)
      | none => (none, cache, 2)

/-! ## get_parsed_transactions.py: balance diffing -/

/-- One entry of `preTokenBalances` / `postTokenBalances`: a mint identifier
(`""` models a falsy/absent mint, which the source skips), an optional
`uiAmount` (`none` models Python `None`, coerced to `0`) and an optional
symbol (`none` or `some ""` are falsy and fall back to `mint[:8]`). -/
structure RawBalance where
  mint : String
  uiAmount : Option ℚ
  symbol : Option String
deriving Repr, DecidableEq

/-- `symbol = token_data.get('symbol') or mint[:8]`. -/
def resolveSymbol (b : RawBalance) : String :=
  match b.symbol with
  | some s => if s = "" then b.mint.take 8 else s
  | none => b.mint.take 8

/-- Dictionary lookup in the pre/post balance map built by
`_analyze_token_changes`: entries with a falsy mint are skipped and a later
entry for the same mint overwrites an earlier one. -/
def balLookup (l : List RawBalance) (mint : String) : Option RawBalance :=
  l.reverse.find? (fun b => b.mint == mint && b.mint != "")

/-- `delta = post - pre` for one mint, absent entries counting as zero. -/
def tokenDelta (pre post : List RawBalance) (mint : String) : ℚ :=
  (match balLookup post mint with
   | some b => b.uiAmount.getD 0
   | none => 0) -
  (match balLookup pre mint with
   | some b => b.uiAmount.getD 0
   | none => 0)

/-- `symbol = post_balances.get(mint, {'symbol': mint[:8]})['symbol']`. -/
def tokenChangeSymbol (post : List RawBalance) (mint : String) : String :=
  match balLookup post mint with
  | some b => resolveSymbol b
  | none => mint.take 8

/-- The union of mints seen in either snapshot, in first-occurrence order
(the source iterates over a Python set; only membership matters below). -/
def allMints (pre post : List RawBalance) : List String :=
  ((pre.filter (fun b => b.mint != "")).map (·.mint) ++
   (post.filter (fun b => b.mint != "")).map (·.mint)).dedup

/-- `SolanaSwapAnalyzer._analyze_token_changes`: returns `(tokens_in,
tokens_out)` as lists of `(amount, symbol)` pairs.  Deltas with
`|delta| ≤ 1e-6` are discarded; positive deltas are inflows, the rest
outflows, both with amount `|delta|`. -/
def analyzeTokenChanges (pre post : List RawBalance) :
    List (ℚ × String) × List (ℚ × String) :=
  ((allMints pre post).filterMap (fun m =>
      let d := tokenDelta pre post m
      if 1 / 1000000 < |d| ∧ 0 < d then some (|d|, tokenChangeSymbol post m) else none),
   (allMints pre post).filterMap (fun m =>
      let d := tokenDelta pre post m
      if 1 / 1000000 < |d| ∧ ¬0 < d then some (|d|, tokenChangeSymbol post m) else none))

/-! ## get_parsed_transactions.py: analyzer loop and features -/

/-- A raw transaction as consumed by the analyzer: block time, fee, the
instruction program identifiers, the account keys, the signature list and the
slot number. -/
structure RawTx where
  blockTime : ℤ
  fee : ℚ
  instructions : List String
  accountKeys : List String
  signatures : List String
  slot : ℤ
deriving Repr, DecidableEq

/-- One element of the `getSignaturesForAddress` response. -/
structure SigInfo where
  signature : String
  blockTime : Option ℤ
deriving Repr, DecidableEq

/-- `SolanaSwapAnalyzer._perform_early_detection` with the classifier as an
opaque scoring oracle (`none` models a model that failed to load). -/
def performEarlyDetection (model : Option (List RawTx → ℚ)) (thr : ℚ)
    (txs : List RawTx) : Bool :=
  match model with
  | none => false
  | some f => decide (thr ≤ f txs)

/-- `SolanaSwapAnalyzer._calculate_bot_probability`. -/
def calculateBotProbability (model : Option (List RawTx → ℚ)) (txs : List RawTx) : ℚ :=
  match model with
  | none => 0
  | some f => if txs = [] then 0 else f txs

/-- The per-signature loop of `SolanaSwapAnalyzer.analyze_wallet`.  Returns
the collected transactions, the early-detection flag and the number of
`getTransaction` ledger fetches issued.  `fetchTx` is the RPC collaborator
(`none` = fetch failed, the transaction is skipped). -/
def analyzeLoop (model : Option (List RawTx → ℚ)) (thr : ℚ) (edc : Nat)
    (fetchTx : String → Option RawTx) :
    List SigInfo → List RawTx → List RawTx × Bool × Nat
  | [], acc => (acc, false, 0)
  | s :: rest, acc =>
    match fetchTx s.signature with
    | none =>
      let r := analyzeLoop model thr edc fetchTx rest acc
      (r.1, r.2.1, r.2.2 + 1)
    | some tx =>
      let acc2 := acc ++ [tx]
      if acc2.length = edc ∧ performEarlyDetection model thr acc2 = true then
        (acc2, true, 1)
      else
        let r := analyzeLoop model thr edc fetchTx rest acc2
        (r.1, r.2.1, r.2.2 + 1)

/-- The fields of the `analyze_wallet` result relevant to early detection. -/
structure AnalysisResult where
  totalTransactions : Nat
  botProbability : ℚ
  earlyTriggered : Bool
  fetchCalls : Nat
deriving Repr, DecidableEq

/-- `SolanaSwapAnalyzer.analyze_wallet` after the signature fetch: the loop
followed by the final classification over the collected window. -/
def analyzeWallet (model : Option (List RawTx → ℚ)) (thr : ℚ) (edc : Nat)
    (fetchTx : String → Option RawTx) (sigs : List SigInfo) : AnalysisResult :=
  let r := analyzeLoop model thr edc fetchTx sigs []
  { totalTransactions := r.1.length,
    botProbability := calculateBotProbability model r.1,
    earlyTriggered := r.2.1,
    fetchCalls := r.2.2 }

/-- The transactions that a full, uninterrupted run would collect (successful
fetches, in order).  Used only to state properties of `analyzeLoop`. -/
def fetchedTxs (fetchTx : String → Option RawTx) (sigs : List SigInfo) : List RawTx :=
  sigs.filterMap (fun s => fetchTx s.signature)

/-- Number of signatures consumed until the `k`-th successful fetch (used to
state that collection halts at the early-detection point). -/
def sigsConsumedUntil (fetchTx : String → Option RawTx) (k : Nat) :
    List SigInfo → Nat
  | [] => 0
  | s :: rest =>
    match fetchTx s.signature with
    | none => 1 + sigsConsumedUntil fetchTx k rest
    | some _ => if k = 1 then 1 else 1 + sigsConsumedUntil fetchTx (k - 1) rest

/-! ## get_parsed_transactions.py: feature extraction -/

/-- `np.mean` over rationals (callers guard against empty lists, as the
source does). -/
def qMean (l : List ℚ) : ℚ := l.sum / l.length

/-- `np.diff`: consecutive differences. -/
def qDiffs (l : List ℚ) : List ℚ :=
  List.zipWith (fun a b => a - b) (l.drop 1) l

/-- Population variance; `np.std` is its square root. -/
def qVariance (l : List ℚ) : ℚ :=
  qMean (l.map (fun x => (x - qMean l) ^ 2))

/-- A feature value.  `np.std` and the Shannon entropy produce irrational
reals; they are kept symbolic as the square root of a (rational) variance and
as the entropy of a signature multiset, so every feature computation stays
executable. -/
inductive FeatureVal where
  | rat (q : ℚ)
  | sqrtOf (q : ℚ)
  | entropyOf (sigs : List String)
deriving Repr, DecidableEq

/-- The fixed canonical feature order (`ordered_feature_names`). -/
def canonicalFeatureNames : List String :=
  ["total_transactions",
   "avg_fee",
   "std_fee",
   "avg_time_between_tx",
   "time_variance",
   "avg_time_between_account_tx",
   "unique_accounts_count",
   "account_diversity_score",
   "avg_instructions_per_tx",
   "instruction_complexity_score",
   "system_program_interaction_ratio",
   "signature_entropy",
   "slot_variation"]

def assocLookup (l : List (String × FeatureVal)) (n : String) : Option FeatureVal :=
  (l.find? (fun p => p.1 == n)).map (·.2)

/-- The timestamps `account_time_pairs[acc]`: one copy of the block time per
occurrence of `acc` in a transaction's account list. -/
def accountTimes (txs : List RawTx) (acc : String) : List ℚ :=
  txs.flatMap (fun t => (t.accountKeys.filter (fun a => a == acc)).map
    (fun _ => ((t.blockTime : ℚ))))

/-- The per-account mean inter-transaction times (`account_avg_times`),
iterating accounts in first-occurrence order. -/
def accountAvgTimes (txs : List RawTx) : List ℚ :=
  (txs.flatMap (fun t => t.accountKeys)).dedup.filterMap (fun a =>
    let ts := accountTimes txs a
    if 1 < ts.length then
      let td := qDiffs (ts.insertionSort (· ≤ ·))
      if 0 < td.length then some (qMean td) else none
    else none)

def systemProgramId : String := "11111111111111111111111111111111"

/-- The `raw_features` dictionary of `_extract_features`, as an association
list in the source's insertion order. -/
def rawFeatures (txs : List RawTx) : List (String × FeatureVal) :=
  let timestamps := txs.map (fun t => ((t.blockTime : ℚ)))
  let timePair : FeatureVal × FeatureVal :=
    if 1 < timestamps.length then
      (.rat (qMean (qDiffs timestamps)), .sqrtOf (qVariance (qDiffs timestamps)))
    else (.rat 0, .rat 0)
  let fees := txs.map (·.fee)
  let instrCounts := txs.map (fun t => ((t.instructions.length : ℚ)))
  let accAvg := accountAvgTimes txs
  let allAccounts := txs.flatMap (fun t => t.accountKeys)
  let uniqueCount := allAccounts.dedup.length
  let sysCount := (txs.filter (fun t => systemProgramId ∈ t.accountKeys)).length
  let sigsAll := txs.flatMap (fun t => t.signatures)
  let slots := txs.map (fun t => ((t.slot : ℚ)))
  [("avg_time_between_tx", timePair.1),
   ("time_variance", timePair.2),
   ("total_transactions", .rat (txs.length : ℚ)),
   ("avg_fee", if fees.isEmpty then .rat 0 else .rat (qMean fees)),
   ("std_fee", if fees.isEmpty then .rat 0 else .sqrtOf (qVariance fees)),
   ("avg_instructions_per_tx",
      if instrCounts.isEmpty then .rat 0 else .rat (qMean instrCounts)),
   ("instruction_complexity_score",
      if instrCounts.isEmpty then .rat 0 else .sqrtOf (qVariance instrCounts)),
   ("avg_time_between_account_tx",
      if accAvg.isEmpty then .rat 0 else .rat (qMean accAvg)),
   ("unique_accounts_count", .rat (uniqueCount : ℚ)),
   ("account_diversity_score",
      if allAccounts.isEmpty then .rat 0
      else .rat ((uniqueCount : ℚ) / (allAccounts.length : ℚ))),
   ("system_program_interaction_ratio",
      if txs.isEmpty then .rat 0 else .rat ((sysCount : ℚ) / (txs.length : ℚ))),
   ("signature_entropy",
      if sigsAll.isEmpty then .rat 0 else .entropyOf sigsAll),
   ("slot_variation",
      if slots.isEmpty then .rat 0 else .sqrtOf (qVariance slots))]

/-- `SolanaSwapAnalyzer._extract_features`: the ordered feature vector, or an
explicit error (`raise ValueError`) when a canonical name is missing from
`raw_features`. -/
def extractFeatures (txs : List RawTx) : Except String (List (String × FeatureVal)) :=
  let raw := rawFeatures txs
  let ordered := canonicalFeatureNames.map (fun n => (n, (assocLookup raw n).getD (.rat 0)))
  let missing := canonicalFeatureNames.filter (fun n => (assocLookup raw n).isNone)
  if missing.isEmpty then Except.ok ordered
  else Except.error "Features manquantes"

/-- Lookup of one feature in an extraction result (used to state properties
of single entries of the feature vector). -/
def featureLookup (r : Except String (List (String × FeatureVal))) (n : String) :
    Option FeatureVal :=
  r.toOption.bind (fun l => assocLookup l n)

/-- Invariant used for the ledger-dates proofs: every entry has a positive
trade count and ordered dates, with the last trade date bounded by `b`. -/
def LedgerDatesBounded (L : Ledger) (b : ℤ) : Prop :=
  ∀ sym m, L sym = some m → 1 ≤ m.trade_count ∧
    ∃ f l, m.first_trade_date = some f ∧ m.last_trade_date = some l ∧ f ≤ l ∧ l ≤ b

/-- Same invariant for the pnl_calculation tracker. -/
def TrackerDatesBounded (T : PnlTracker) (b : ℤ) : Prop :=
  ∀ sym e, T sym = some e → 1 ≤ e.trade_count ∧
    e.first_trade_date ≤ e.last_trade_date ∧ e.last_trade_date ≤ b

/-- Decidable equality for `Except` results (the raised error of
`get_sol_price_at_time` and of the unrealized-PnL pass). -/
instance {α : Type} [DecidableEq α] : DecidableEq (Except String α) := fun a b =>
  match a, b with
  | Except.ok x, Except.ok y =>
    if h : x = y then isTrue (by rw [h]) else isFalse (by simp [h])
  | Except.error x, Except.error y =>
    if h : x = y then isTrue (by rw [h]) else isFalse (by simp [h])
  | Except.ok _, Except.error _ => isFalse (by simp)
  | Except.error _, Except.ok _ => isFalse (by simp)

/-- Weak ledger invariant: every entry has a positive trade count and
non-null trade dates. -/
def LedgerWeakInv (L : Ledger) : Prop :=
  ∀ sym m, L sym = some m → 1 ≤ m.trade_count ∧
    m.first_trade_date.isSome ∧ m.last_trade_date.isSome

/-- Weak tracker invariant: every entry has a positive trade count. -/
def TrackerWeakInv (T : PnlTracker) : Prop :=
  ∀ sym e, T sym = some e → 1 ≤ e.trade_count

/-- The entry written by an active `process_transaction` call (the buy or
sell update of the previous entry, followed by the date/count update). -/
def pnlUpdatedEntry (row : TxRow) (sp : ℚ) (dt : ℤ) (prev : Option PnlEntry) : PnlEntry :=
  let e0 := prev.getD { first_trade_date := dt, last_trade_date := dt }
  let e1 := if row.token1 ∈ SOLANA_ADDRESSES then
      { e0 with usd_invested := e0.usd_invested + row.amount1 * sp,
                balance := e0.balance + row.amount2 }
    else
      { e0 with usd_withdrawn := e0.usd_withdrawn + row.amount2 * sp,
                balance := e0.balance - row.amount1 }
  { e1 with last_trade_date := dt, trade_count := e1.trade_count + 1 }


/-! ## Theorems -/

/-- Helper: the only error `unrealizedStep` can produce is the
`AttributeError` of the missing `get_token_price` attribute. -/
theorem unrealizedStep_error_msg (ps : PriceServiceIface) (t : ℤ) (sym : String)
    (m : TokenMetrics) (e : String)
    (h : unrealizedStep ps t sym m = Except.error e) : e = getTokenPriceAttrError := by
  by_cases hb : m.balance ≤ 0
  · simp [unrealizedStep, hb] at h
  · by_cases hs : sym ∈ SOLANA_ADDRESSES
    · cases hp : ps.getSolPrice t <;> simp [unrealizedStep, hb, hs, hp] at h
    · simp [unrealizedStep, hb, hs] at h
      exact h.symm

/-- Helper: the unrealized-PnL pass aborts with the `AttributeError` whenever
its items contain a non-SOL token with positive balance. -/
theorem calculateUnrealizedPnl_aborts (ps : PriceServiceIface) (t : ℤ) :
    ∀ (items : List (String × TokenMetrics)) (sym : String) (m : TokenMetrics),
      (sym, m) ∈ items → 0 < m.balance → sym ∉ SOLANA_ADDRESSES →
      calculateUnrealizedPnl ps t items = Except.error getTokenPriceAttrError := by
  intro items
  induction items with
  | nil => intro sym m hmem _ _; simp at hmem
  | cons hd rest ih =>
    intro sym m hmem hbal hsol
    obtain ⟨s0, m0⟩ := hd
    rcases List.mem_cons.mp hmem with heq | hmem2
    · have hstep : unrealizedStep ps t s0 m0 = Except.error getTokenPriceAttrError := by
        have h1 : s0 = sym := (congrArg Prod.fst heq).symm
        have h2 : m0 = m := (congrArg Prod.snd heq).symm
        rw [h1, h2]
        simp [unrealizedStep, not_le.mpr hbal, hsol]
      simp [calculateUnrealizedPnl, hstep]
    · cases hstep : unrealizedStep ps t s0 m0 with
      | error e =>
        rw [unrealizedStep_error_msg ps t s0 m0 e hstep] at hstep
        simp [calculateUnrealizedPnl, hstep]
      | ok m2 =>
        simp [calculateUnrealizedPnl, hstep, ih sym m hmem2 hbal hsol]

/-- C1, counterexample: a swap leg whose token value is unresolvable does NOT
leave the ledger untouched — `_process_token_swap` creates the entry (with
trade count 1 and both trade dates set) before the early return; and a token
with positive balance whose current price is unresolvable does not get
unrealized PnL 0: the pass raises an `AttributeError` (the `get_token_price`
attribute does not exist on `PriceService`), aborting the run.  Both halves
of the claim as stated are false. -/
theorem C1_counterexample :
    (processTokenSwap
        ⟨fun _ => some 150, fun _ _ => none, fun _ _ => none⟩
        emptyLedger ⟨2, "TOKX"⟩ true 100 150) "TOKX" =
      some { realized_pnl := 0, unrealized_pnl := 0, usd_invested := 0,
             usd_withdrawn := 0, balance := 0, trade_count := 1,
             first_trade_date := some 100, last_trade_date := some 100 } ∧
    emptyLedger "TOKX" = none ∧
    calculateUnrealizedPnl
        ⟨fun _ => some 150, fun _ _ => none, fun _ _ => none⟩ 0
        [("TOKX", { balance := 3, usd_invested := 1, trade_count := 1,
                    first_trade_date := some 1, last_trade_date := some 2 })] =
      Except.error
        "AttributeError: PriceService object has no attribute get_token_price" := by
  refine ⟨rfl, rfl, rfl⟩

/-- C1, amended: for a leg whose USD value is unresolvable, the monetary
fields (`usd_invested`, `usd_withdrawn`, `balance`) are left unchanged and no
other symbol is touched (the leg is processed by a total function, without
failing the swap), but the entry is still created if absent and its
`trade_count` and `last_trade_date` are updated.  In the unrealized-PnL pass,
an entry with non-positive balance gets `unrealized_pnl = 0` without any
price lookup, and a SOL-address entry whose SOL price is unresolvable
degrades to `unrealized_pnl = 0` without aborting; but any non-SOL token with
positive balance makes the iteration — and therefore the whole pass — raise
an `AttributeError`, because `PriceService` has no `get_token_price` method,
so the analysis run aborts instead of degrading. -/
theorem C1_amended_skipped_leg :
    (∀ (ps : PriceServiceIface) (L : Ledger) (td : TokenData) (isInput : Bool)
        (t : ℤ) (sp : ℚ),
      td.symbol ∉ SOLANA_ADDRESSES →
      calculateTokenValue ps td.symbol td.amount t = none →
      (processTokenSwap ps L td isInput t sp) td.symbol =
        some { (L td.symbol).getD
                 { first_trade_date := some t, last_trade_date := some t } with
               last_trade_date := some t,
               trade_count := ((L td.symbol).getD
                 { first_trade_date := some t, last_trade_date := some t }).trade_count + 1 } ∧
      (∀ s, s ≠ td.symbol → (processTokenSwap ps L td isInput t sp) s = L s)) ∧
    (∀ (ps : PriceServiceIface) (t : ℤ) (sym : String) (m : TokenMetrics),
      m.balance ≤ 0 →
      unrealizedStep ps t sym m = Except.ok { m with unrealized_pnl := 0 }) ∧
    (∀ (ps : PriceServiceIface) (t : ℤ) (sym : String) (m : TokenMetrics),
      sym ∈ SOLANA_ADDRESSES → ps.getSolPrice t = none →
      unrealizedStep ps t sym m = Except.ok { m with unrealized_pnl := 0 }) ∧
    (∀ (ps : PriceServiceIface) (t : ℤ) (sym : String) (m : TokenMetrics),
      0 < m.balance → sym ∉ SOLANA_ADDRESSES →
      unrealizedStep ps t sym m = Except.error getTokenPriceAttrError) ∧
    (∀ (ps : PriceServiceIface) (t : ℤ) (items : List (String × TokenMetrics))
        (sym : String) (m : TokenMetrics),
      (sym, m) ∈ items → 0 < m.balance → sym ∉ SOLANA_ADDRESSES →
      calculateUnrealizedPnl ps t items = Except.error getTokenPriceAttrError) := by
  refine ⟨?_, ?_, ?_, ?_, ?_⟩
  · intro ps L td isInput t sp hsym hval
    constructor
    · cases hL : L td.symbol with
      | none => simp [processTokenSwap, hsym, hval, Ledger.set, hL]
      | some m => simp [processTokenSwap, hsym, hval, Ledger.set, hL]
    · intro s hs
      cases hL : L td.symbol with
      | none => simp [processTokenSwap, hsym, hval, Ledger.set, hL, hs]
      | some m => simp [processTokenSwap, hsym, hval, Ledger.set, hL, hs]
  · intro ps t sym m hb
    simp [unrealizedStep, hb]
  · intro ps t sym m hs hp
    by_cases hb : m.balance ≤ 0
    · simp [unrealizedStep, hb]
    · simp [unrealizedStep, hb, hs, hp]
  · intro ps t sym m hb hs
    simp [unrealizedStep, not_le.mpr hb, hs]
  · intro ps t items sym m hmem hb hs
    exact calculateUnrealizedPnl_aborts ps t items sym m hmem hb hs

/-- C1, witness: the amended theorem applied to a concrete unresolvable leg,
a concrete SOL entry with a missing SOL price, and a concrete non-SOL entry
with positive balance that aborts the pass. -/
theorem C1_amended_skipped_leg_witness :
    ("TOKY" ∉ SOLANA_ADDRESSES) ∧
    calculateTokenValue
        ⟨fun _ => some 150, fun _ _ => none, fun _ _ => none⟩
        "TOKY" 2 100 = none ∧
    (processTokenSwap
        ⟨fun _ => some 150, fun _ _ => none, fun _ _ => none⟩
        emptyLedger ⟨2, "TOKY"⟩ true 100 150) "TOKY" =
      some { trade_count := 1, first_trade_date := some 100, last_trade_date := some 100 } ∧
    unrealizedStep ⟨fun _ => none, fun _ _ => none, fun _ _ => none⟩ 0
        "So11111111111111111111111111111111111111112"
        { balance := 3, usd_invested := 1, trade_count := 1,
          first_trade_date := some 1, last_trade_date := some 2 } =
      Except.ok { balance := 3, usd_invested := 1, trade_count := 1,
                  first_trade_date := some 1, last_trade_date := some 2,
                  unrealized_pnl := 0 } ∧
    calculateUnrealizedPnl ⟨fun _ => none, fun _ _ => none, fun _ _ => none⟩ 0
        [("TOKY", { balance := 3, usd_invested := 1, trade_count := 1,
                    first_trade_date := some 1, last_trade_date := some 2 })] =
      Except.error getTokenPriceAttrError := by
  refine ⟨by decide, by decide, ?_, ?_, ?_⟩
  · have h := (C1_amended_skipped_leg.1)
      ⟨fun _ => some 150, fun _ _ => none, fun _ _ => none⟩
      emptyLedger ⟨2, "TOKY"⟩ true 100 150 (by decide) (by decide)
    exact h.1.trans (by decide)
  · have h := (C1_amended_skipped_leg.2.2.1)
      ⟨fun _ => none, fun _ _ => none, fun _ _ => none⟩ 0
      "So11111111111111111111111111111111111111112"
      { balance := 3, usd_invested := 1, trade_count := 1,
        first_trade_date := some 1, last_trade_date := some 2 }
      (by decide) (by decide)
    exact h.trans (by decide)
  · exact (C1_amended_skipped_leg.2.2.2.2)
      ⟨fun _ => none, fun _ _ => none, fun _ _ => none⟩ 0
      [("TOKY", { balance := 3, usd_invested := 1, trade_count := 1,
                  first_trade_date := some 1, last_trade_date := some 2 })]
      "TOKY" { balance := 3, usd_invested := 1, trade_count := 1,
               first_trade_date := some 1, last_trade_date := some 2 }
      (by decide) (by decide) (by decide)

/-- C2, counterexample: in `pnl_calculation.process_transaction`, a buy
(SOL out, token in) INCREASES the received token's balance by the received
amount (balance = 2), whereas the claim requires a received leg to decrease
the balance (to -2). -/
theorem C2_counterexample :
    (processTransaction 7202000 (fun _ => some 150) emptyTracker
        ⟨"So11111111111111111111111111111111111111112", "TOKX", 10, 2, 7200000⟩) "TOKX" =
      some { realized := 0, unrealized := 0, usd_invested := 1500, usd_withdrawn := 0,
             balance := 2, trade_count := 1,
             first_trade_date := 7200000, last_trade_date := 7200000 } ∧
    (2 : ℚ) ≠ 0 - 2 := by
  constructor
  · simp [processTransaction, emptyTracker, PnlTracker.set, roundToNearestHour,
      EXCLUDED_TOKENS, SOLANA_ADDRESSES]
    norm_num
  · norm_num

/-- C2, amended: in `MetricsCalculator._process_token_swap` an inflow leg
does `usd_invested += value; balance -= amount` and an outflow leg does
`usd_withdrawn += value; balance += amount`, as claimed; but in
`pnl_calculation.process_transaction` the target-token balance moves the
opposite way: a buy increases it by the received amount and a sell decreases
it by the sent amount. -/
theorem C2_amended_balance_updates :
    (∀ (ps : PriceServiceIface) (L : Ledger) (td : TokenData) (t : ℤ) (sp v : ℚ),
      (if td.symbol ∈ SOLANA_ADDRESSES then some (td.amount * sp)
       else calculateTokenValue ps td.symbol td.amount t) = some v →
      ∀ m0, m0 = (L td.symbol).getD
          { first_trade_date := some t, last_trade_date := some t } →
        (processTokenSwap ps L td true t sp) td.symbol =
          some { m0 with
                   last_trade_date := some t,
                   trade_count := m0.trade_count + 1,
                   usd_invested := m0.usd_invested + v,
                   balance := m0.balance - td.amount } ∧
        (processTokenSwap ps L td false t sp) td.symbol =
          some { m0 with
                   last_trade_date := some t,
                   trade_count := m0.trade_count + 1,
                   usd_withdrawn := m0.usd_withdrawn + v,
                   balance := m0.balance + td.amount }) ∧
    (∀ (now : ℤ) (spAt : ℤ → Option ℚ) (T : PnlTracker) (row : TxRow) (sp : ℚ),
      row.token1 ∈ SOLANA_ADDRESSES →
      row.token1 ∉ EXCLUDED_TOKENS → row.token2 ∉ EXCLUDED_TOKENS →
      spAt (roundToNearestHour now row.block_time) = some sp →
      ∀ e0, e0 = (T row.token2).getD
          { first_trade_date := roundToNearestHour now row.block_time,
            last_trade_date := roundToNearestHour now row.block_time } →
        (processTransaction now spAt T row) row.token2 =
          some { e0 with
                   usd_invested := e0.usd_invested + row.amount1 * sp,
                   balance := e0.balance + row.amount2,
                   last_trade_date := roundToNearestHour now row.block_time,
                   trade_count := e0.trade_count + 1 }) ∧
    (∀ (now : ℤ) (spAt : ℤ → Option ℚ) (T : PnlTracker) (row : TxRow) (sp : ℚ),
      row.token1 ∉ SOLANA_ADDRESSES → row.token2 ∈ SOLANA_ADDRESSES →
      row.token1 ∉ EXCLUDED_TOKENS → row.token2 ∉ EXCLUDED_TOKENS →
      spAt (roundToNearestHour now row.block_time) = some sp →
      ∀ e0, e0 = (T row.token1).getD
          { first_trade_date := roundToNearestHour now row.block_time,
            last_trade_date := roundToNearestHour now row.block_time } →
        (processTransaction now spAt T row) row.token1 =
          some { e0 with
                   usd_withdrawn := e0.usd_withdrawn + row.amount2 * sp,
                   balance := e0.balance - row.amount1,
                   last_trade_date := roundToNearestHour now row.block_time,
                   trade_count := e0.trade_count + 1 }) := by
  refine ⟨?_, ?_, ?_⟩
  · intro ps L td t sp v hv m0 hm0
    subst hm0
    cases hL : L td.symbol with
    | none =>
      constructor <;> simp [processTokenSwap, hv, Ledger.set, hL]
    | some m =>
      constructor <;> simp [processTokenSwap, hv, Ledger.set, hL]
  · intro now spAt T row sp h1 hx1 hx2 hsp e0 he0
    subst he0
    cases hT : T row.token2 with
    | none =>
      simp [processTransaction, hx1, hx2, h1, hsp, PnlTracker.set, hT]
    | some e =>
      simp [processTransaction, hx1, hx2, h1, hsp, PnlTracker.set, hT]
  · intro now spAt T row sp h1 h2 hx1 hx2 hsp e0 he0
    subst he0
    cases hT : T row.token1 with
    | none =>
      simp [processTransaction, hx1, hx2, h1, h2, hsp, PnlTracker.set, hT]
    | some e =>
      simp [processTransaction, hx1, hx2, h1, h2, hsp, PnlTracker.set, hT]

/-- C2, witness: the amended theorem applied to one concrete inflow leg and
one concrete buy and sell row. -/
theorem C2_amended_balance_updates_witness :
    (processTokenSwap
        ⟨fun _ => some 150, fun _ _ => none, fun _ _ => none⟩
        emptyLedger ⟨2, "So11111111111111111111111111111111111111112"⟩ true 100 150)
        "So11111111111111111111111111111111111111112" =
      some { usd_invested := 300, balance := -2, trade_count := 1,
             first_trade_date := some 100, last_trade_date := some 100 } ∧
    (processTransaction 7202000 (fun _ => some 150) emptyTracker
        ⟨"So11111111111111111111111111111111111111112", "TOKQ", 10, 2, 7200000⟩) "TOKQ" =
      some { usd_invested := 1500, balance := 2, trade_count := 1,
             first_trade_date := 7200000, last_trade_date := 7200000 } ∧
    (processTransaction 7202000 (fun _ => some 150) emptyTracker
        ⟨"TOKQ", "So11111111111111111111111111111111111111112", 3, 4, 7200000⟩) "TOKQ" =
      some { usd_withdrawn := 600, balance := -3, trade_count := 1,
             first_trade_date := 7200000, last_trade_date := 7200000 } := by
  refine ⟨?_, ?_, ?_⟩
  · have h := (C2_amended_balance_updates.1)
      ⟨fun _ => some 150, fun _ _ => none, fun _ _ => none⟩
      emptyLedger ⟨2, "So11111111111111111111111111111111111111112"⟩ 100 150 300
      (by norm_num [SOLANA_ADDRESSES]) _ rfl
    refine h.1.trans ?_
    norm_num [emptyLedger, Option.some.injEq, TokenMetrics.mk.injEq]
  · have h := (C2_amended_balance_updates.2.1) 7202000 (fun _ => some 150) emptyTracker
      ⟨"So11111111111111111111111111111111111111112", "TOKQ", 10, 2, 7200000⟩ 150
      (by decide) (by decide) (by decide) rfl _ rfl
    refine h.trans ?_
    norm_num [emptyTracker, roundToNearestHour, Option.some.injEq, PnlEntry.mk.injEq]
  · have h := (C2_amended_balance_updates.2.2) 7202000 (fun _ => some 150) emptyTracker
      ⟨"TOKQ", "So11111111111111111111111111111111111111112", 3, 4, 7200000⟩ 150
      (by decide) (by decide) (by decide) (by decide) rfl _ rfl
    refine h.trans ?_
    norm_num [emptyTracker, roundToNearestHour, Option.some.injEq, PnlEntry.mk.injEq]

/-- C3, confirmed: in both PnL passes, realized PnL per token is 0 when
`usd_invested > 0 ∧ usd_withdrawn = 0 ∧ balance > 0`, else 0 when
`balance < 0` (in particular it is 0 for every entry with negative balance),
else `usd_withdrawn - usd_invested`; the other fields are unchanged. -/
theorem C3_realized_pnl :
    (∀ (L : Ledger) (s : String) (m : TokenMetrics), L s = some m →
      ∃ m', (calculateRealizedPnl L) s = some m' ∧
        m'.realized_pnl =
          (if m.usd_invested > 0 ∧ m.usd_withdrawn = 0 ∧ m.balance > 0 then 0
           else if m.balance < 0 then 0
           else m.usd_withdrawn - m.usd_invested) ∧
        (m.balance < 0 → m'.realized_pnl = 0) ∧
        m'.usd_invested = m.usd_invested ∧ m'.usd_withdrawn = m.usd_withdrawn ∧
        m'.balance = m.balance ∧ m'.trade_count = m.trade_count) ∧
    (∀ (T : PnlTracker) (s : String) (e : PnlEntry), T s = some e →
      ∃ e', (trackerRealizedPass T) s = some e' ∧
        e'.realized =
          (if e.usd_invested > 0 ∧ e.usd_withdrawn = 0 ∧ e.balance > 0 then 0
           else if e.balance < 0 then 0
           else e.usd_withdrawn - e.usd_invested) ∧
        (e.balance < 0 → e'.realized = 0) ∧
        e'.usd_invested = e.usd_invested ∧ e'.usd_withdrawn = e.usd_withdrawn ∧
        e'.balance = e.balance ∧ e'.trade_count = e.trade_count) := by
  constructor
  · intro L s m hm
    refine ⟨{ m with realized_pnl :=
        if m.usd_invested > 0 ∧ m.usd_withdrawn = 0 ∧ m.balance > 0 then 0
        else if m.balance < 0 then 0
        else m.usd_withdrawn - m.usd_invested },
      by simp [calculateRealizedPnl, hm], rfl, ?_, rfl, rfl, rfl, rfl⟩
    intro hneg
    have h1 : ¬(m.usd_invested > 0 ∧ m.usd_withdrawn = 0 ∧ m.balance > 0) := by
      rintro ⟨-, -, h⟩
      exact absurd (h.trans hneg) (lt_irrefl 0)
    simp [h1, hneg]
  · intro T s e he
    refine ⟨{ e with realized :=
        if e.usd_invested > 0 ∧ e.usd_withdrawn = 0 ∧ e.balance > 0 then 0
        else if e.balance < 0 then 0
        else e.usd_withdrawn - e.usd_invested },
      by simp [trackerRealizedPass, he], rfl, ?_, rfl, rfl, rfl, rfl⟩
    intro hneg
    have h1 : ¬(e.usd_invested > 0 ∧ e.usd_withdrawn = 0 ∧ e.balance > 0) := by
      rintro ⟨-, -, h⟩
      exact absurd (h.trans hneg) (lt_irrefl 0)
    simp [h1, hneg]

/-- C3, witness: a ledger entry with invested 100, withdrawn 0 and balance 5
gets realized PnL 0. -/
theorem C3_realized_pnl_witness :
    ((fun s => if s = "A" then
        some ({ usd_invested := 100, usd_withdrawn := 0, balance := 5,
                trade_count := 1 } : TokenMetrics)
      else none) : Ledger) "A" =
      some { usd_invested := 100, usd_withdrawn := 0, balance := 5, trade_count := 1 } ∧
    (∃ m', (calculateRealizedPnl (fun s => if s = "A" then
        some ({ usd_invested := 100, usd_withdrawn := 0, balance := 5,
                trade_count := 1 } : TokenMetrics)
      else none)) "A" = some m' ∧ m'.realized_pnl = 0) := by
  constructor
  · rfl
  · have h := C3_realized_pnl.1 (fun s => if s = "A" then
        some ({ usd_invested := 100, usd_withdrawn := 0, balance := 5,
                trade_count := 1 } : TokenMetrics)
      else none) "A" _ rfl
    obtain ⟨m', hm', hr, -⟩ := h
    refine ⟨m', hm', hr.trans ?_⟩
    norm_num

/-- C5, counterexample: `PriceService.get_sol_price` does not round the
requested timestamp: a request at second 2700 (minute 45, far in the past)
uses 2700 itself as the cache key and query window start, although the
nearest-hour rounding of 2700 is 3600. -/
theorem C5_counterexample :
    getSolPrice (fun _ => some 5) 3 [] 2700 = (some 5, [(2700, 5)], [2700]) ∧
    roundToNearestHour 1000000000 2700 = 3600 ∧
    (2700 : ℤ) ≠ 3600 := by
  refine ⟨by decide, by decide, by decide⟩

/-- C5, amended: `round_to_nearest_hour` maps any non-future timestamp to an
hour boundary that is never in the future: minutes below 30 round down to the
hour start, minutes of 30 and above round up to the next hour unless that
hour is in the future, in which case two hours are subtracted.  (The rounding
is applied by the pnl_calculation caller; `PriceService.get_sol_price` keys
its cache by the raw timestamp, per the counterexample.) -/
theorem C5_amended_rounding (now ts : ℤ) (h : ts ≤ now) :
    roundToNearestHour now ts % 3600 = 0 ∧
    roundToNearestHour now ts ≤ now ∧
    (ts % 3600 < 1800 → roundToNearestHour now ts = ts - ts % 3600) ∧
    (1800 ≤ ts % 3600 → ts - ts % 3600 + 3600 ≤ now →
      roundToNearestHour now ts = ts - ts % 3600 + 3600) ∧
    (1800 ≤ ts % 3600 → now < ts - ts % 3600 + 3600 →
      roundToNearestHour now ts = ts - ts % 3600 - 3600) := by
  refine ⟨?_, ?_, ?_, ?_, ?_⟩ <;>
    simp only [roundToNearestHour] <;> split_ifs <;> omega

/-- C5, witness: the amended theorem applied at a concrete non-future
timestamp. -/
theorem C5_amended_rounding_witness :
    ((5000 : ℤ) ≤ 10000) ∧ roundToNearestHour 10000 5000 ≤ 10000 ∧
    roundToNearestHour 10000 5000 = 3600 := by
  have h := C5_amended_rounding 10000 5000 (by decide)
  exact ⟨by decide, h.2.1, (h.2.2.1 (by decide)).trans (by decide)⟩

theorem fetchFirst_all_none (fetch : ℤ → Option ℚ) (h : ∀ x, fetch x = none) :
    ∀ l, fetchFirst fetch l = (none, l) := by
  intro l
  induction l with
  | nil => rfl
  | cons a t ih => simp [fetchFirst, h, ih]

theorem cons_shift_range (a step : ℤ) (n : ℕ) :
    a :: (List.range n).map (fun (i : ℕ) => a - step - step * (i : ℤ)) =
      (List.range (n + 1)).map (fun (i : ℕ) => a - step * (i : ℤ)) := by
  rw [List.range_succ_eq_map, List.map_cons, List.map_map]
  refine congrArg₂ _ (by simp) ?_
  refine List.map_congr_left ?_
  intro i hi
  simp [Function.comp, Nat.succ_eq_add_one]
  ring

/-- C4, counterexample: on exhaustion `price_utils.get_sol_price_at_time`
raises (models `raise ValueError`) instead of signalling NotFound, and
`PriceService.get_sol_price` issues only `MAX_RETRIES` total attempts
(`MAX_RETRIES - 1` additional ones), not `1 + MAX_RETRIES`. -/
theorem C4_counterexample :
    (getSolPriceAtTime (fun _ => none) MAX_RETRIES [] 0).1 =
      Except.error "Failed to retrieve SOL price" ∧
    (getSolPrice (fun _ => none) MAX_RETRIES [] 0).2.2 = [0, -3600, -7200] ∧
    ([0, -3600, -7200] : List ℤ).length ≠ 1 + MAX_RETRIES := by
  refine ⟨by decide, by decide, by decide⟩

/-- C4, amended: with an always-empty price source, `PriceService.get_sol_price`
fetches exactly the hours `ts, ts - 1h, …, ts - (MAX_RETRIES-1)h` (the initial
attempt plus `MAX_RETRIES - 1` retries, each one hour further into the past)
and returns `none` (an absence value) on exhaustion, while
`price_utils.get_sol_price_at_time` fetches `ts, ts - 1h, …, ts - r·1h`
(`r` additional attempts) and on exhaustion raises an error instead of
returning an absence value. -/
theorem C4_amended_retry_behavior :
    (∀ (fetch : ℤ → Option ℚ) (mr : ℕ) (ts : ℤ), 1 ≤ mr → (∀ x, fetch x = none) →
      getSolPrice fetch mr [] ts =
        (none, [], (List.range mr).map (fun (i : ℕ) => ts - 3600 * (i : ℤ)))) ∧
    (∀ (fetch : ℤ → Option ℚ) (r : ℕ) (ts : ℤ), (∀ x, fetch x = none) →
      getSolPriceAtTime fetch r [] ts =
        (Except.error "Failed to retrieve SOL price", [],
          (List.range (r + 1)).map (fun (i : ℕ) => ts - 3600 * (i : ℤ)))) := by
  constructor
  · intro fetch mr ts hmr h
    have h1 : (List.range' 1 (mr - 1)).map (fun (i : ℕ) => ts - 3600 * (i : ℤ)) =
        (List.range (mr - 1)).map (fun (i : ℕ) => ts - 3600 - 3600 * (i : ℤ)) := by
      rw [List.range'_eq_map_range, List.map_map]
      refine List.map_congr_left ?_
      intro i hi
      simp [Function.comp]
      ring
    have hlist : ts :: (List.range' 1 (mr - 1)).map (fun (i : ℕ) => ts - 3600 * (i : ℤ)) =
        (List.range mr).map (fun (i : ℕ) => ts - 3600 * (i : ℤ)) := by
      rw [h1, cons_shift_range]
      have h2 : mr - 1 + 1 = mr := by omega
      rw [h2]
    simp only [getSolPrice, solCacheLookup, List.find?_nil, Option.map_none', hlist,
      fetchFirst_all_none fetch h]
  · intro fetch r ts h
    induction r generalizing ts with
    | zero =>
      simp [getSolPriceAtTime, solCacheLookup, h]
      rw [show List.range 1 = [0] from rfl]
      norm_num
    | succ k ih =>
      have step : getSolPriceAtTime fetch (k + 1) [] ts =
          ((getSolPriceAtTime fetch k [] (ts - 3600)).1,
           (getSolPriceAtTime fetch k [] (ts - 3600)).2.1,
           ts :: (getSolPriceAtTime fetch k [] (ts - 3600)).2.2) := by
        simp [getSolPriceAtTime, solCacheLookup, h]
      rw [step, ih (ts - 3600)]
      simp only [Prod.mk.injEq, true_and]
      have := cons_shift_range ts 3600 (k + 1)
      simpa using this

/-- C4, witness: the amended theorem applied to the always-empty oracle with
the configured `MAX_RETRIES = 3`. -/
theorem C4_amended_retry_behavior_witness :
    getSolPrice (fun _ => none) MAX_RETRIES [] 0 = (none, [], [0, -3600, -7200]) ∧
    getSolPriceAtTime (fun _ => none) MAX_RETRIES [] 0 =
      (Except.error "Failed to retrieve SOL price", [], [0, -3600, -7200, -10800]) := by
  constructor
  · exact (C4_amended_retry_behavior.1 (fun _ => none) MAX_RETRIES 0 (by decide)
      (fun _ => rfl)).trans (by decide)
  · exact (C4_amended_retry_behavior.2 (fun _ => none) MAX_RETRIES 0
      (fun _ => rfl)).trans (by decide)

theorem solCacheLookup_cons (k0 : ℤ) (p : ℚ) (c : SolCache) (k : ℤ) :
    solCacheLookup ((k0, p) :: c) k =
      if k0 = k then some p else solCacheLookup c k := by
  by_cases h : k0 = k <;> simp [solCacheLookup, List.find?_cons, h]

theorem tokenSolLookup_cons (k0 : String × ℤ) (p : ℚ) (c : TokenSolCache)
    (tok : String) (ts : ℤ) :
    tokenSolLookup ((k0, p) :: c) tok ts =
      if k0 = (tok, ts) then some p else tokenSolLookup c tok ts := by
  by_cases h : k0 = (tok, ts) <;> simp [tokenSolLookup, List.find?_cons, h]

theorem getSolPriceAtTime_preserves_none (fetch : ℤ → Option ℚ) :
    ∀ (r : ℕ) (c : SolCache) (dt k : ℤ), solCacheLookup c k = none → dt < k →
      solCacheLookup ((getSolPriceAtTime fetch r c dt).2.1) k = none := by
  intro r
  induction r with
  | zero =>
    intro c dt k hk hlt
    cases h1 : solCacheLookup c dt with
    | some p => simpa [getSolPriceAtTime, h1] using hk
    | none =>
      cases h2 : fetch dt with
      | some p =>
        have hc : (getSolPriceAtTime fetch 0 c dt).2.1 = (dt, p) :: c := by
          simp [getSolPriceAtTime, h1, h2]
        rw [hc, solCacheLookup_cons, if_neg (by omega)]
        exact hk
      | none => simpa [getSolPriceAtTime, h1, h2] using hk
  | succ n ih =>
    intro c dt k hk hlt
    cases h1 : solCacheLookup c dt with
    | some p => simpa [getSolPriceAtTime, h1] using hk
    | none =>
      cases h2 : fetch dt with
      | some p =>
        have hc : (getSolPriceAtTime fetch (n + 1) c dt).2.1 = (dt, p) :: c := by
          simp [getSolPriceAtTime, h1, h2]
        rw [hc, solCacheLookup_cons, if_neg (by omega)]
        exact hk
      | none =>
        have := ih c (dt - 3600) k hk (by omega)
        simpa [getSolPriceAtTime, h1, h2] using this

/-- C7, counterexample: after `get_sol_price_at_time` succeeds for key 7200
via the one-hour-back retry (caching under key 3600), a second lookup for the
same key 7200 issues a further remote fetch ([7200] ≠ []), contradicting the
claim that a second lookup after a successful fetch issues no remote calls. -/
theorem C7_counterexample :
    getSolPriceAtTime (fun h => if h = 3600 then some 10 else none) 3 [] 7200 =
      (Except.ok 10, [(3600, 10)], [7200, 3600]) ∧
    getSolPriceAtTime (fun h => if h = 3600 then some 10 else none) 3 [(3600, 10)] 7200 =
      (Except.ok 10, [(3600, 10)], [7200]) ∧
    ([7200] : List ℤ) ≠ ([] : List ℤ) := by
  refine ⟨by decide, by decide, by decide⟩

/-- C7, amended: a cache write only ever happens at an absent key, and an
existing entry is never overwritten (preservation holds for the token-in-SOL
cache, the PriceService SOL cache and the price_utils SOL cache); for
`PriceService.get_token_price_in_sol` and `PriceService.get_sol_price` a
second lookup for the same key after a first successful fetch returns the
identical value with no further remote calls and an unchanged cache; for
`price_utils.get_sol_price_at_time` the second lookup returns the identical
value with an unchanged cache, but may re-issue remote fetches when the first
success came from a stepped-back hour. -/
theorem C7_amended_cache_idempotence :
    (∀ (apis : TokenApis) (spf : ℤ → Option ℚ) (c : TokenSolCache)
        (tok : String) (ts : ℤ) (v : ℚ),
      tokenSolLookup c tok ts = some v →
      getTokenPriceInSol apis spf c tok ts = (some v, c, 0)) ∧
    (∀ (apis : TokenApis) (spf : ℤ → Option ℚ) (c : TokenSolCache)
        (tok : String) (ts : ℤ) (tok2 : String) (ts2 : ℤ) (v : ℚ),
      tokenSolLookup c tok2 ts2 = some v →
      tokenSolLookup (getTokenPriceInSol apis spf c tok ts).2.1 tok2 ts2 = some v) ∧
    (∀ (apis : TokenApis) (spf : ℤ → Option ℚ) (c : TokenSolCache)
        (tok : String) (ts : ℤ) (p : ℚ),
      (getTokenPriceInSol apis spf c tok ts).1 = some p →
      getTokenPriceInSol apis spf (getTokenPriceInSol apis spf c tok ts).2.1 tok ts =
        (some p, (getTokenPriceInSol apis spf c tok ts).2.1, 0)) ∧
    (∀ (fetch : ℤ → Option ℚ) (mr : ℕ) (c : SolCache) (ts : ℤ) (v : ℚ),
      solCacheLookup c ts = some v → getSolPrice fetch mr c ts = (some v, c, [])) ∧
    (∀ (fetch : ℤ → Option ℚ) (mr : ℕ) (c : SolCache) (ts k : ℤ) (v : ℚ),
      solCacheLookup c k = some v →
      solCacheLookup (getSolPrice fetch mr c ts).2.1 k = some v) ∧
    (∀ (fetch : ℤ → Option ℚ) (mr : ℕ) (c : SolCache) (ts : ℤ) (p : ℚ),
      (getSolPrice fetch mr c ts).1 = some p →
      getSolPrice fetch mr (getSolPrice fetch mr c ts).2.1 ts =
        (some p, (getSolPrice fetch mr c ts).2.1, [])) ∧
    (∀ (fetch : ℤ → Option ℚ) (r : ℕ) (c : SolCache) (ts k : ℤ) (v : ℚ),
      solCacheLookup c k = some v →
      solCacheLookup ((getSolPriceAtTime fetch r c ts).2.1) k = some v) ∧
    (∀ (fetch : ℤ → Option ℚ) (r : ℕ) (c : SolCache) (ts : ℤ) (p : ℚ)
        (c2 : SolCache) (tr : List ℤ),
      getSolPriceAtTime fetch r c ts = (Except.ok p, c2, tr) →
      (getSolPriceAtTime fetch r c2 ts).1 = Except.ok p ∧
      (getSolPriceAtTime fetch r c2 ts).2.1 = c2) := by
  refine ⟨?_, ?_, ?_, ?_, ?_, ?_, ?_, ?_⟩
  · intro apis spf c tok ts v h
    simp [getTokenPriceInSol, h]
  · intro apis spf c tok ts tok2 ts2 v h
    cases h1 : tokenSolLookup c tok ts with
    | some q => simpa [getTokenPriceInSol, h1] using h
    | none =>
      have hne : ¬((tok, ts) = (tok2, ts2)) := by
        intro he
        rw [show tok = tok2 from congrArg Prod.fst he,
            show ts = ts2 from congrArg Prod.snd he] at h1
        rw [h1] at h
        exact Option.noConfusion h
      cases h2 : apis.pumpFun tok with
      | some p =>
        simp [getTokenPriceInSol, h1, h2, tokenSolLookup_cons, hne, h]
      | none =>
        cases h3 : apis.jupiter tok with
        | some jp =>
          cases h4 : spf ts with
          | some sp =>
            by_cases h5 : sp = 0
            · simpa [getTokenPriceInSol, h1, h2, h3, h4, h5] using h
            · simp [getTokenPriceInSol, h1, h2, h3, h4, h5, tokenSolLookup_cons, hne, h]
          | none => simpa [getTokenPriceInSol, h1, h2, h3, h4] using h
        | none => simpa [getTokenPriceInSol, h1, h2, h3] using h
  · intro apis spf c tok ts p h
    cases h1 : tokenSolLookup c tok ts with
    | some q =>
      have hc : (getTokenPriceInSol apis spf c tok ts) = (some q, c, 0) := by
        simp [getTokenPriceInSol, h1]
      rw [hc] at h ⊢
      obtain rfl : q = p := Option.some.inj h
      simp [getTokenPriceInSol, h1]
    | none =>
      cases h2 : apis.pumpFun tok with
      | some p0 =>
        have hc : (getTokenPriceInSol apis spf c tok ts) =
            (some p0, ((tok, ts), p0) :: c, 1) := by
          simp [getTokenPriceInSol, h1, h2]
        rw [hc] at h ⊢
        obtain rfl : p0 = p := Option.some.inj h
        simp [getTokenPriceInSol, tokenSolLookup_cons]
      | none =>
        cases h3 : apis.jupiter tok with
        | some jp =>
          cases h4 : spf ts with
          | some sp =>
            by_cases h5 : sp = 0
            · have hc : (getTokenPriceInSol apis spf c tok ts).1 = none := by
                simp [getTokenPriceInSol, h1, h2, h3, h4, h5]
              rw [hc] at h
              exact Option.noConfusion h
            · have hc : (getTokenPriceInSol apis spf c tok ts) =
                  (some (jp / sp), ((tok, ts), jp / sp) :: c, 3) := by
                simp [getTokenPriceInSol, h1, h2, h3, h4, h5]
              rw [hc] at h ⊢
              obtain rfl : jp / sp = p := Option.some.inj h
              simp [getTokenPriceInSol, tokenSolLookup_cons]
          | none =>
            have hc : (getTokenPriceInSol apis spf c tok ts).1 = none := by
              simp [getTokenPriceInSol, h1, h2, h3, h4]
            rw [hc] at h
            exact Option.noConfusion h
        | none =>
          have hc : (getTokenPriceInSol apis spf c tok ts).1 = none := by
            simp [getTokenPriceInSol, h1, h2, h3]
          rw [hc] at h
          exact Option.noConfusion h
  · intro fetch mr c ts v h
    simp [getSolPrice, h]
  · intro fetch mr c ts k v h
    cases h1 : solCacheLookup c ts with
    | some q => simpa [getSolPrice, h1] using h
    | none =>
      have hne : ¬(ts = k) := by
        intro he
        rw [he] at h1
        rw [h1] at h
        exact Option.noConfusion h
      cases h2 : fetchFirst fetch (ts ::
          (List.range' 1 (mr - 1)).map (fun (i : ℕ) => ts - 3600 * (i : ℤ))) with
      | mk res tried =>
        cases res with
        | some p =>
          simp [getSolPrice, h1, h2, solCacheLookup_cons, hne, h]
        | none =>
          simpa [getSolPrice, h1, h2] using h
  · intro fetch mr c ts p h
    cases h1 : solCacheLookup c ts with
    | some q =>
      have hc : getSolPrice fetch mr c ts = (some q, c, []) := by
        simp [getSolPrice, h1]
      rw [hc] at h ⊢
      obtain rfl : q = p := Option.some.inj h
      simp [getSolPrice, h1]
    | none =>
      cases h2 : fetchFirst fetch (ts ::
          (List.range' 1 (mr - 1)).map (fun (i : ℕ) => ts - 3600 * (i : ℤ))) with
      | mk res tried =>
        cases res with
        | some q =>
          have hc : getSolPrice fetch mr c ts = (some q, (ts, q) :: c, tried) := by
            simp [getSolPrice, h1, h2]
          rw [hc] at h ⊢
          obtain rfl : q = p := Option.some.inj h
          simp [getSolPrice, solCacheLookup_cons]
        | none =>
          have hc : (getSolPrice fetch mr c ts).1 = none := by
            simp [getSolPrice, h1, h2]
          rw [hc] at h
          exact Option.noConfusion h
  · intro fetch r
    induction r with
    | zero =>
      intro c ts k v h
      cases h1 : solCacheLookup c ts with
      | some q => simpa [getSolPriceAtTime, h1] using h
      | none =>
        have hne : ¬(ts = k) := by
          intro he
          rw [he] at h1
          rw [h1] at h
          exact Option.noConfusion h
        cases h2 : fetch ts with
        | some p => simp [getSolPriceAtTime, h1, h2, solCacheLookup_cons, hne, h]
        | none => simpa [getSolPriceAtTime, h1, h2] using h
    | succ n ih =>
      intro c ts k v h
      cases h1 : solCacheLookup c ts with
      | some q => simpa [getSolPriceAtTime, h1] using h
      | none =>
        have hne : ¬(ts = k) := by
          intro he
          rw [he] at h1
          rw [h1] at h
          exact Option.noConfusion h
        cases h2 : fetch ts with
        | some p => simp [getSolPriceAtTime, h1, h2, solCacheLookup_cons, hne, h]
        | none =>
          have := ih c (ts - 3600) k v h
          simpa [getSolPriceAtTime, h1, h2] using this
  · intro fetch r
    induction r with
    | zero =>
      intro c ts p c2 tr h
      cases h1 : solCacheLookup c ts with
      | some q =>
        rw [show getSolPriceAtTime fetch 0 c ts = (Except.ok q, c, []) from
          by simp [getSolPriceAtTime, h1]] at h
        have hq : Except.ok (ε := String) q = Except.ok p := congrArg Prod.fst h
        have hc2 : c = c2 := congrArg (fun x => x.2.1) h
        obtain rfl : q = p := by simpa using hq
        subst hc2
        simp [getSolPriceAtTime, h1]
      | none =>
        cases h2 : fetch ts with
        | some q =>
          rw [show getSolPriceAtTime fetch 0 c ts = (Except.ok q, (ts, q) :: c, [ts]) from
            by simp [getSolPriceAtTime, h1, h2]] at h
          have hq : Except.ok (ε := String) q = Except.ok p := congrArg Prod.fst h
          have hc2 : (ts, q) :: c = c2 := congrArg (fun x => x.2.1) h
          obtain rfl : q = p := by simpa using hq
          subst hc2
          simp [getSolPriceAtTime, solCacheLookup_cons]
        | none =>
          rw [show getSolPriceAtTime fetch 0 c ts =
              (Except.error "Failed to retrieve SOL price", c, [ts]) from
            by simp [getSolPriceAtTime, h1, h2]] at h
          exact absurd (congrArg Prod.fst h) (by simp)
    | succ n ih =>
      intro c ts p c2 tr h
      cases h1 : solCacheLookup c ts with
      | some q =>
        rw [show getSolPriceAtTime fetch (n + 1) c ts = (Except.ok q, c, []) from
          by simp [getSolPriceAtTime, h1]] at h
        have hq : Except.ok (ε := String) q = Except.ok p := congrArg Prod.fst h
        have hc2 : c = c2 := congrArg (fun x => x.2.1) h
        obtain rfl : q = p := by simpa using hq
        subst hc2
        simp [getSolPriceAtTime, h1]
      | none =>
        cases h2 : fetch ts with
        | some q =>
          rw [show getSolPriceAtTime fetch (n + 1) c ts =
              (Except.ok q, (ts, q) :: c, [ts]) from
            by simp [getSolPriceAtTime, h1, h2]] at h
          have hq : Except.ok (ε := String) q = Except.ok p := congrArg Prod.fst h
          have hc2 : (ts, q) :: c = c2 := congrArg (fun x => x.2.1) h
          obtain rfl : q = p := by simpa using hq
          subst hc2
          simp [getSolPriceAtTime, solCacheLookup_cons]
        | none =>
          have hrec : getSolPriceAtTime fetch (n + 1) c ts =
              ((getSolPriceAtTime fetch n c (ts - 3600)).1,
               (getSolPriceAtTime fetch n c (ts - 3600)).2.1,
               ts :: (getSolPriceAtTime fetch n c (ts - 3600)).2.2) := by
            simp [getSolPriceAtTime, h1, h2]
          rw [hrec] at h
          have hres : (getSolPriceAtTime fetch n c (ts - 3600)).1 = Except.ok p :=
            congrArg Prod.fst h
          have hc2 : (getSolPriceAtTime fetch n c (ts - 3600)).2.1 = c2 :=
            congrArg (fun x => x.2.1) h
          have hrec_eq : getSolPriceAtTime fetch n c (ts - 3600) =
              (Except.ok p, c2, (getSolPriceAtTime fetch n c (ts - 3600)).2.2) := by
            rw [← hres, ← hc2]
          have hih := ih c (ts - 3600) p c2 _ hrec_eq
          have hnone2 : solCacheLookup c2 ts = none := by
            rw [← hc2]
            exact getSolPriceAtTime_preserves_none fetch n c (ts - 3600) ts h1 (by omega)
          have hstep2 : getSolPriceAtTime fetch (n + 1) c2 ts =
              ((getSolPriceAtTime fetch n c2 (ts - 3600)).1,
               (getSolPriceAtTime fetch n c2 (ts - 3600)).2.1,
               ts :: (getSolPriceAtTime fetch n c2 (ts - 3600)).2.2) := by
            simp [getSolPriceAtTime, hnone2, h2]
          rw [hstep2]
          exact ⟨hih.1, hih.2⟩

/-- C7, witness: a concrete first fetch through Pump Fun followed by a
remote-free second lookup of the same key. -/
theorem C7_amended_cache_idempotence_witness :
    (getTokenPriceInSol ⟨fun _ => some 4, fun _ => none⟩ (fun _ => none) [] "T" 5).1 =
      some 4 ∧
    getTokenPriceInSol ⟨fun _ => some 4, fun _ => none⟩ (fun _ => none)
        (getTokenPriceInSol ⟨fun _ => some 4, fun _ => none⟩ (fun _ => none) [] "T" 5).2.1
        "T" 5 =
      (some 4,
       (getTokenPriceInSol ⟨fun _ => some 4, fun _ => none⟩ (fun _ => none) [] "T" 5).2.1,
       0) := by
  have h := C7_amended_cache_idempotence.2.2.1
    ⟨fun _ => some 4, fun _ => none⟩ (fun _ => none) [] "T" 5 4 (by decide)
  exact ⟨by decide, h⟩

/-- C6, counterexample: for a token present only in the pre-balance snapshot
with an explicit symbol "ABC", `_analyze_token_changes` attaches the first 8
characters of the mint identifier, not the pre-balance symbol required by the
claim. -/
theorem C6_counterexample :
    analyzeTokenChanges [⟨"MINTAAAABBBB", some 5, some "ABC"⟩] [] =
      ([], [(5, "MINTAAAA")]) ∧
    "MINTAAAA" ≠ "ABC" := by
  constructor
  · simp +decide [analyzeTokenChanges, allMints, tokenDelta, tokenChangeSymbol,
      balLookup, resolveSymbol, List.filterMap, List.dedup]
    norm_num
    decide
  · decide

/-- C6, amended: identical snapshots yield empty inflow and outflow lists;
every delta above the 1e-6 threshold appears as an inflow (amount = delta)
and every delta below -1e-6 as an outflow (amount = |delta|); every listed
pair comes from such a mint (so tokens with `|delta| ≤ 1e-6` contribute
nothing); and the attached symbol comes from the post-balance snapshot when
the mint is present there, else it is the first 8 characters of the mint
identifier (not the pre-balance symbol). -/
theorem C6_amended_diff_balances :
    (∀ pre post : List RawBalance, pre = post →
      analyzeTokenChanges pre post = ([], [])) ∧
    (∀ (pre post : List RawBalance) (m : String), m ∈ allMints pre post →
      1 / 1000000 < tokenDelta pre post m →
      (tokenDelta pre post m, tokenChangeSymbol post m) ∈ (analyzeTokenChanges pre post).1) ∧
    (∀ (pre post : List RawBalance) (m : String), m ∈ allMints pre post →
      tokenDelta pre post m < -(1 / 1000000) →
      (-tokenDelta pre post m, tokenChangeSymbol post m) ∈ (analyzeTokenChanges pre post).2) ∧
    (∀ (pre post : List RawBalance) (p : ℚ × String),
      p ∈ (analyzeTokenChanges pre post).1 →
      ∃ m, m ∈ allMints pre post ∧ 1 / 1000000 < tokenDelta pre post m ∧
        p = (tokenDelta pre post m, tokenChangeSymbol post m)) ∧
    (∀ (pre post : List RawBalance) (p : ℚ × String),
      p ∈ (analyzeTokenChanges pre post).2 →
      ∃ m, m ∈ allMints pre post ∧ tokenDelta pre post m < -(1 / 1000000) ∧
        p = (-tokenDelta pre post m, tokenChangeSymbol post m)) ∧
    (∀ (post : List RawBalance) (m : String) (b : RawBalance),
      balLookup post m = some b → tokenChangeSymbol post m = resolveSymbol b) ∧
    (∀ (post : List RawBalance) (m : String),
      balLookup post m = none → tokenChangeSymbol post m = m.take 8) := by
  have hε : (0 : ℚ) < 1 / 1000000 := by norm_num
  refine ⟨?_, ?_, ?_, ?_, ?_, ?_, ?_⟩
  · intro pre post hpp
    subst hpp
    have hz : ∀ m : String, tokenDelta pre pre m = 0 := by
      intro m
      simp [tokenDelta]
    refine Prod.ext ?_ ?_ <;>
      · refine List.filterMap_eq_nil_iff.mpr ?_
        intro m hm
        simp [hz m, hε.not_lt, abs_of_nonneg (le_refl (0 : ℚ))]
  · intro pre post m hm hδ
    have hpos : 0 < tokenDelta pre post m := hε.trans hδ
    refine List.mem_filterMap.mpr ⟨m, hm, ?_⟩
    rw [if_pos ⟨by rwa [abs_of_pos hpos], hpos⟩, abs_of_pos hpos]
  · intro pre post m hm hδ
    have hneg : tokenDelta pre post m < 0 := hδ.trans (by norm_num)
    refine List.mem_filterMap.mpr ⟨m, hm, ?_⟩
    rw [if_pos ⟨by rw [abs_of_neg hneg]; linarith, not_lt.mpr hneg.le⟩,
      abs_of_neg hneg]
  · intro pre post p hp
    obtain ⟨m, hm, hsome⟩ := List.mem_filterMap.mp hp
    by_cases hc : 1 / 1000000 < |tokenDelta pre post m| ∧ 0 < tokenDelta pre post m
    · rw [if_pos hc] at hsome
      obtain rfl := Option.some.inj hsome
      have h1 := hc.1
      rw [abs_of_pos hc.2] at h1
      exact ⟨m, hm, h1, by rw [abs_of_pos hc.2]⟩
    · rw [if_neg hc] at hsome
      exact Option.noConfusion hsome
  · intro pre post p hp
    obtain ⟨m, hm, hsome⟩ := List.mem_filterMap.mp hp
    by_cases hc : 1 / 1000000 < |tokenDelta pre post m| ∧ ¬0 < tokenDelta pre post m
    · rw [if_pos hc] at hsome
      obtain rfl := Option.some.inj hsome
      have hle : tokenDelta pre post m ≤ 0 := not_lt.mp hc.2
      have habs : |tokenDelta pre post m| = -tokenDelta pre post m := abs_of_nonpos hle
      refine ⟨m, hm, ?_, by rw [habs]⟩
      rw [habs] at hc
      linarith [hc.1]
    · rw [if_neg hc] at hsome
      exact Option.noConfusion hsome
  · intro post m b hb
    simp [tokenChangeSymbol, hb]
  · intro post m hb
    simp [tokenChangeSymbol, hb]

/-- C6, witness: a concrete delta of +2 appears as the inflow (2, "M1"). -/
theorem C6_amended_diff_balances_witness :
    (2, "M1") ∈ (analyzeTokenChanges [⟨"M1", some 5, none⟩] [⟨"M1", some 7, none⟩]).1 := by
  have hδ : tokenDelta [⟨"M1", some 5, none⟩] [⟨"M1", some 7, none⟩] "M1" = 2 := by
    simp +decide [tokenDelta, balLookup]
    norm_num
  have hs : tokenChangeSymbol [⟨"M1", some 7, none⟩] "M1" = "M1" := by
    simp +decide [tokenChangeSymbol, balLookup, resolveSymbol]
  have h := C6_amended_diff_balances.2.1 [⟨"M1", some 5, none⟩] [⟨"M1", some 7, none⟩]
    "M1" (by simp +decide [allMints, List.dedup]) (by rw [hδ]; norm_num)
  rwa [hδ, hs] at h

theorem analyzeLoop_trigger (f : List RawTx → ℚ) (thr : ℚ) (edc : Nat)
    (fetchTx : String → Option RawTx) :
    ∀ (sigs : List SigInfo) (acc : List RawTx),
      acc.length < edc →
      edc ≤ acc.length + (fetchedTxs fetchTx sigs).length →
      thr ≤ f ((acc ++ fetchedTxs fetchTx sigs).take edc) →
      analyzeLoop (some f) thr edc fetchTx sigs acc =
        ((acc ++ fetchedTxs fetchTx sigs).take edc, true,
         sigsConsumedUntil fetchTx (edc - acc.length) sigs) := by
  intro sigs
  induction sigs with
  | nil =>
    intro acc hlt hge hthr
    simp [fetchedTxs] at hge
    omega
  | cons s rest ih =>
    intro acc hlt hge hthr
    cases hf : fetchTx s.signature with
    | none =>
      have hfe : fetchedTxs fetchTx (s :: rest) = fetchedTxs fetchTx rest := by
        simp [fetchedTxs, hf]
      rw [hfe] at hge hthr
      have hrec := ih acc hlt hge hthr
      simp only [analyzeLoop, hf, hrec, sigsConsumedUntil, hfe, Prod.mk.injEq]
      exact ⟨trivial, trivial, by omega⟩
    | some tx =>
      have hfe : fetchedTxs fetchTx (s :: rest) = tx :: fetchedTxs fetchTx rest := by
        simp [fetchedTxs, hf]
      by_cases hlen : acc.length + 1 = edc
      · have htake : (acc ++ fetchedTxs fetchTx (s :: rest)).take edc = acc ++ [tx] := by
          rw [hfe, ← hlen]
          rw [show acc ++ tx :: fetchedTxs fetchTx rest =
              (acc ++ [tx]) ++ fetchedTxs fetchTx rest by simp]
          rw [List.take_append_of_le_length (by simp)]
          simp
        have hdet : performEarlyDetection (some f) thr (acc ++ [tx]) = true := by
          rw [htake] at hthr
          simp [performEarlyDetection, hthr]
        simp only [analyzeLoop, hf]
        rw [if_pos ⟨by simpa using hlen, hdet⟩, htake]
        have hcons : sigsConsumedUntil fetchTx (edc - acc.length) (s :: rest) = 1 := by
          simp only [sigsConsumedUntil, hf]
          rw [if_pos (by omega)]
        rw [hcons]
      · have hlt2 : (acc ++ [tx]).length < edc := by
          simp
          omega
        have hge2 : edc ≤ (acc ++ [tx]).length + (fetchedTxs fetchTx rest).length := by
          rw [hfe] at hge
          simp at hge ⊢
          omega
        have hthr2 : thr ≤ f (((acc ++ [tx]) ++ fetchedTxs fetchTx rest).take edc) := by
          rw [hfe] at hthr
          simpa using hthr
        have hrec := ih (acc ++ [tx]) hlt2 hge2 hthr2
        have hcond : ¬((acc ++ [tx]).length = edc ∧
            performEarlyDetection (some f) thr (acc ++ [tx]) = true) := by
          rintro ⟨hl, -⟩
          simp at hl
          omega
        simp only [analyzeLoop, hf]
        rw [if_neg hcond, hrec]
        simp only [Prod.mk.injEq]
        refine ⟨by rw [hfe]; simp, trivial, ?_⟩
        have hcons : sigsConsumedUntil fetchTx (edc - acc.length) (s :: rest) =
            1 + sigsConsumedUntil fetchTx (edc - acc.length - 1) rest := by
          simp only [sigsConsumedUntil, hf]
          rw [if_neg (by omega)]
        rw [hcons]
        have : edc - (acc ++ [tx]).length = edc - acc.length - 1 := by
          simp
          omega
        rw [this]
        omega

theorem sigsConsumedUntil_le_length (fetchTx : String → Option RawTx) :
    ∀ (k : ℕ) (sigs : List SigInfo), sigsConsumedUntil fetchTx k sigs ≤ sigs.length := by
  intro k sigs
  induction sigs generalizing k with
  | nil => simp [sigsConsumedUntil]
  | cons s rest ih =>
    cases hf : fetchTx s.signature with
    | none =>
      simp only [sigsConsumedUntil, hf, List.length_cons]
      have := ih k
      omega
    | some tx =>
      simp only [sigsConsumedUntil, hf, List.length_cons]
      by_cases hk : k = 1
      · rw [if_pos hk]
        omega
      · rw [if_neg hk]
        have := ih (k - 1)
        omega

/-- C8, confirmed: when the collected window reaches the early-detection
count and the classifier score over that window is at least the bot
threshold, the run stops with `early_detection.triggered = true`, the final
bot probability equals the score computed over that window, and the number of
ledger fetches equals the number of signatures consumed up to the detection
point (no further fetches are issued). -/
theorem C8_early_detection (f : List RawTx → ℚ) (thr : ℚ) (edc : ℕ)
    (fetchTx : String → Option RawTx) (sigs : List SigInfo)
    (h1 : 1 ≤ edc)
    (h2 : edc ≤ (fetchedTxs fetchTx sigs).length)
    (h3 : thr ≤ f ((fetchedTxs fetchTx sigs).take edc)) :
    analyzeWallet (some f) thr edc fetchTx sigs =
      { totalTransactions := edc,
        botProbability := f ((fetchedTxs fetchTx sigs).take edc),
        earlyTriggered := true,
        fetchCalls := sigsConsumedUntil fetchTx edc sigs } ∧
    sigsConsumedUntil fetchTx edc sigs ≤ sigs.length := by
  have hrec := analyzeLoop_trigger f thr edc fetchTx sigs []
    (by simp only [List.length_nil]; omega)
    (by simpa using h2) (by simpa using h3)
  constructor
  · have hlen : ((fetchedTxs fetchTx sigs).take edc).length = edc := by
      rw [List.length_take]
      exact Nat.min_eq_left h2
    have hne : (fetchedTxs fetchTx sigs).take edc ≠ [] := by
      intro hnil
      rw [hnil] at hlen
      simp at hlen
      omega
    simp only [analyzeWallet, hrec, List.nil_append, Nat.sub_zero]
    simp [calculateBotProbability, hne, hlen]
  · exact sigsConsumedUntil_le_length fetchTx edc sigs

/-- C8, witness: with threshold 3/4, early-detection count 2 and a constant
classifier score of 1, a three-signature run stops after two fetches with
probability 1 and the flag set. -/
theorem C8_early_detection_witness :
    analyzeWallet (some (fun _ => 1)) (3 / 4) 2
        (fun _ => some ⟨1, 5, [], [], ["s"], 1⟩)
        [⟨"a", some 1⟩, ⟨"b", some 2⟩, ⟨"c", some 3⟩] =
      { totalTransactions := 2, botProbability := 1, earlyTriggered := true,
        fetchCalls := 2 } ∧
    (2 : ℕ) ≤ 3 := by
  have h := C8_early_detection (fun _ => 1) (3 / 4) 2
    (fun _ => some ⟨1, 5, [], [], ["s"], 1⟩)
    [⟨"a", some 1⟩, ⟨"b", some 2⟩, ⟨"c", some 3⟩]
    (by decide) (by decide) (by norm_num)
  exact ⟨h.1.trans (by decide), by decide⟩

theorem qMean_singleton (x : ℚ) : qMean [x] = x := by
  simp [qMean]

theorem qVariance_singleton (x : ℚ) : qVariance [x] = 0 := by
  simp [qVariance, qMean]

theorem qMean_all_zero (l : List ℚ) (h : ∀ y ∈ l, y = 0) : qMean l = 0 := by
  rw [qMean, List.sum_eq_zero h, zero_div]

theorem zipWith_sub_all_zero (c : ℚ) :
    ∀ (u v : List ℚ), (∀ x ∈ u, x = c) → (∀ x ∈ v, x = c) →
      ∀ y ∈ List.zipWith (fun a b => a - b) u v, y = 0 := by
  intro u
  induction u with
  | nil => intro v _ _ y hy; simp at hy
  | cons a t ih =>
    intro v hu hv y hy
    cases v with
    | nil => simp at hy
    | cons b s =>
      simp only [List.zipWith_cons_cons, List.mem_cons] at hy
      rcases hy with hy | hy
      · rw [hy, hu a (by simp), hv b (by simp), sub_self]
      · exact ih s (fun x hx => hu x (by simp [hx])) (fun x hx => hv x (by simp [hx])) y hy

theorem qDiffs_all_zero (l : List ℚ) (c : ℚ) (h : ∀ x ∈ l, x = c) :
    ∀ y ∈ qDiffs l, y = 0 := by
  intro y hy
  exact zipWith_sub_all_zero c (l.drop 1) l
    (fun x hx => h x (List.mem_of_mem_drop hx)) h y hy

theorem accountAvgTimes_single_all_zero (tx : RawTx) :
    ∀ y ∈ accountAvgTimes [tx], y = 0 := by
  intro y hy
  obtain ⟨a, ha, hsome⟩ := List.mem_filterMap.mp hy
  by_cases h1 : 1 < (accountTimes [tx] a).length
  · rw [if_pos h1] at hsome
    have hconst : ∀ x ∈ accountTimes [tx] a, x = ((tx.blockTime : ℚ)) := by
      intro x hx
      simp only [accountTimes, List.flatMap_cons, List.flatMap_nil, List.append_nil] at hx
      obtain ⟨-, -, hx⟩ := List.mem_map.mp hx
      exact hx.symm
    have hsorted : ∀ x ∈ (accountTimes [tx] a).insertionSort (· ≤ ·),
        x = ((tx.blockTime : ℚ)) := by
      intro x hx
      exact hconst x ((List.perm_insertionSort (· ≤ ·) (accountTimes [tx] a)).mem_iff.mp hx)
    have hzeros := qDiffs_all_zero _ _ hsorted
    by_cases h2 : 0 < (qDiffs ((accountTimes [tx] a).insertionSort (· ≤ ·))).length
    · rw [if_pos h2] at hsome
      obtain rfl := Option.some.inj hsome
      exact qMean_all_zero _ hzeros
    · rw [if_neg h2] at hsome
      exact Option.noConfusion hsome
  · rw [if_neg h1] at hsome
    exact Option.noConfusion hsome

/-- C9, counterexample: over a single-element window the statistic `avg_fee`
equals the transaction's fee (5000), not 0, so "all statistics over an empty
or single-element window are 0" is false as stated. -/
theorem C9_counterexample :
    featureLookup (extractFeatures
        [⟨100, 5000, ["p1", "p2"], ["acc1", "acc1", "sys"], ["sigA", "sigB"], 42⟩])
      "avg_fee" = some (FeatureVal.rat 5000) ∧
    FeatureVal.rat 5000 ≠ FeatureVal.rat 0 := by
  constructor
  · have h : featureLookup (extractFeatures
        [⟨100, 5000, ["p1", "p2"], ["acc1", "acc1", "sys"], ["sigA", "sigB"], 42⟩])
        "avg_fee" = some (FeatureVal.rat (qMean [5000])) := rfl
    rw [h, qMean_singleton]
  · simp only [ne_eq, FeatureVal.rat.injEq]
    norm_num

/-- C9, amended: for every window the extraction succeeds and returns
exactly the 13 canonical feature names in the fixed canonical order (the
missing-feature error is the only failure mode and can never fire because
`raw_features` always contains all 13 names); over the empty window all 13
statistics are 0; over any single-element window the inter-transaction and
dispersion statistics (`avg_time_between_tx`, `time_variance`,
`avg_time_between_account_tx`, `std_fee`, `instruction_complexity_score`,
`slot_variation`) are 0 and every entry is a well-defined value, but the
count/mean statistics (`avg_fee`, `total_transactions`) take the
transaction's own values. -/
theorem C9_amended_features :
    (∀ txs : List RawTx, ∃ l, extractFeatures txs = Except.ok l ∧
      l.map Prod.fst = canonicalFeatureNames ∧ l.length = 13) ∧
    extractFeatures [] =
      Except.ok (canonicalFeatureNames.map (fun n => (n, FeatureVal.rat 0))) ∧
    (∀ tx : RawTx,
      featureLookup (extractFeatures [tx]) "avg_time_between_tx" =
        some (FeatureVal.rat 0) ∧
      featureLookup (extractFeatures [tx]) "time_variance" =
        some (FeatureVal.rat 0) ∧
      featureLookup (extractFeatures [tx]) "avg_time_between_account_tx" =
        some (FeatureVal.rat 0) ∧
      featureLookup (extractFeatures [tx]) "std_fee" =
        some (FeatureVal.sqrtOf 0) ∧
      featureLookup (extractFeatures [tx]) "instruction_complexity_score" =
        some (FeatureVal.sqrtOf 0) ∧
      featureLookup (extractFeatures [tx]) "slot_variation" =
        some (FeatureVal.sqrtOf 0) ∧
      featureLookup (extractFeatures [tx]) "avg_fee" =
        some (FeatureVal.rat tx.fee) ∧
      featureLookup (extractFeatures [tx]) "total_transactions" =
        some (FeatureVal.rat 1)) := by
  refine ⟨fun txs => ⟨_, rfl, rfl, rfl⟩, rfl, ?_⟩
  intro tx
  refine ⟨rfl, rfl, ?_, ?_, ?_, ?_, ?_, ?_⟩
  · have h : featureLookup (extractFeatures [tx]) "avg_time_between_account_tx" =
        some (if (accountAvgTimes [tx]).isEmpty then FeatureVal.rat 0
              else FeatureVal.rat (qMean (accountAvgTimes [tx]))) := rfl
    rw [h]
    by_cases he : (accountAvgTimes [tx]).isEmpty
    · rw [if_pos he]
    · rw [if_neg he, qMean_all_zero _ (accountAvgTimes_single_all_zero tx)]
  · have h : featureLookup (extractFeatures [tx]) "std_fee" =
        some (FeatureVal.sqrtOf (qVariance [tx.fee])) := rfl
    rw [h, qVariance_singleton]
  · have h : featureLookup (extractFeatures [tx]) "instruction_complexity_score" =
        some (FeatureVal.sqrtOf (qVariance [((tx.instructions.length : ℚ))])) := rfl
    rw [h, qVariance_singleton]
  · have h : featureLookup (extractFeatures [tx]) "slot_variation" =
        some (FeatureVal.sqrtOf (qVariance [((tx.slot : ℚ))])) := rfl
    rw [h, qVariance_singleton]
  · have h : featureLookup (extractFeatures [tx]) "avg_fee" =
        some (FeatureVal.rat (qMean [tx.fee])) := rfl
    rw [h, qMean_singleton]
  · have h : featureLookup (extractFeatures [tx]) "total_transactions" =
        some (FeatureVal.rat (((1 : ℕ) : ℚ))) := rfl
    rw [h]
    norm_num

theorem processTokenSwap_eq_of_value_none (ps : PriceServiceIface) (L : Ledger)
    (td : TokenData) (inp : Bool) (t : ℤ) (sp : ℚ)
    (hv : (if td.symbol ∈ SOLANA_ADDRESSES then some (td.amount * sp)
           else calculateTokenValue ps td.symbol td.amount t) = none) :
    processTokenSwap ps L td inp t sp = L.set td.symbol
      { (L td.symbol).getD { first_trade_date := some t, last_trade_date := some t } with
        last_trade_date := some t,
        trade_count := ((L td.symbol).getD
          { first_trade_date := some t, last_trade_date := some t }).trade_count + 1 } := by
  cases hL : L td.symbol <;> simp [processTokenSwap, hv, hL]

theorem processTokenSwap_eq_of_value_some (ps : PriceServiceIface) (L : Ledger)
    (td : TokenData) (inp : Bool) (t : ℤ) (sp v : ℚ)
    (hv : (if td.symbol ∈ SOLANA_ADDRESSES then some (td.amount * sp)
           else calculateTokenValue ps td.symbol td.amount t) = some v) :
    processTokenSwap ps L td inp t sp = L.set td.symbol
      (let m1 := { (L td.symbol).getD
            { first_trade_date := some t, last_trade_date := some t } with
          last_trade_date := some t,
          trade_count := ((L td.symbol).getD
            { first_trade_date := some t, last_trade_date := some t }).trade_count + 1 }
       if inp then
         { m1 with usd_invested := m1.usd_invested + v, balance := m1.balance - td.amount }
       else
         { m1 with usd_withdrawn := m1.usd_withdrawn + v, balance := m1.balance + td.amount }) := by
  cases hL : L td.symbol <;> cases inp <;> simp [processTokenSwap, hv, hL]

theorem processTokenSwap_weakInv (ps : PriceServiceIface) (L : Ledger)
    (td : TokenData) (inp : Bool) (t : ℤ) (sp : ℚ) (h : LedgerWeakInv L) :
    LedgerWeakInv (processTokenSwap ps L td inp t sp) := by
  intro sym m hm
  cases hv : (if td.symbol ∈ SOLANA_ADDRESSES then some (td.amount * sp)
      else calculateTokenValue ps td.symbol td.amount t) with
  | none =>
    rw [processTokenSwap_eq_of_value_none ps L td inp t sp hv] at hm
    simp only [Ledger.set] at hm
    by_cases hs : sym = td.symbol
    · rw [if_pos hs] at hm
      obtain rfl := Option.some.inj hm
      cases hL : L td.symbol with
      | none => simp [hL]
      | some m0 =>
        have h0 := h td.symbol m0 hL
        simp [hL]
        exact h0.2.1
    · rw [if_neg hs] at hm
      exact h sym m hm
  | some v =>
    rw [processTokenSwap_eq_of_value_some ps L td inp t sp v hv] at hm
    simp only [Ledger.set] at hm
    by_cases hs : sym = td.symbol
    · rw [if_pos hs] at hm
      obtain rfl := Option.some.inj hm
      cases hL : L td.symbol with
      | none => cases inp <;> simp [hL]
      | some m0 =>
        have h0 := h td.symbol m0 hL
        cases inp <;> simp [hL] <;> exact h0.2.1
    · rw [if_neg hs] at hm
      exact h sym m hm

theorem processTokenSwap_bounded (ps : PriceServiceIface) (L : Ledger)
    (td : TokenData) (inp : Bool) (t b : ℤ) (sp : ℚ)
    (h : LedgerDatesBounded L b) (hbt : b ≤ t) :
    LedgerDatesBounded (processTokenSwap ps L td inp t sp) t := by
  intro sym m hm
  cases hv : (if td.symbol ∈ SOLANA_ADDRESSES then some (td.amount * sp)
      else calculateTokenValue ps td.symbol td.amount t) with
  | none =>
    rw [processTokenSwap_eq_of_value_none ps L td inp t sp hv] at hm
    simp only [Ledger.set] at hm
    by_cases hs : sym = td.symbol
    · rw [if_pos hs] at hm
      obtain rfl := Option.some.inj hm
      cases hL : L td.symbol with
      | none => simp [hL]
      | some m0 =>
        obtain ⟨-, f, l, hf, hl, hfl, hlb⟩ := h td.symbol m0 hL
        simp [hL]
        exact ⟨f, hf, by omega⟩
    · rw [if_neg hs] at hm
      obtain ⟨hc, f, l, hf, hl, hfl, hlb⟩ := h sym m hm
      exact ⟨hc, f, l, hf, hl, hfl, by omega⟩
  | some v =>
    rw [processTokenSwap_eq_of_value_some ps L td inp t sp v hv] at hm
    simp only [Ledger.set] at hm
    by_cases hs : sym = td.symbol
    · rw [if_pos hs] at hm
      obtain rfl := Option.some.inj hm
      cases hL : L td.symbol with
      | none => cases inp <;> simp [hL]
      | some m0 =>
        obtain ⟨-, f, l, hf, hl, hfl, hlb⟩ := h td.symbol m0 hL
        cases inp <;> simp [hL] <;> exact ⟨f, hf, by omega⟩
    · rw [if_neg hs] at hm
      obtain ⟨hc, f, l, hf, hl, hfl, hlb⟩ := h sym m hm
      exact ⟨hc, f, l, hf, hl, hfl, by omega⟩

theorem foldl_tokens_weakInv (ps : PriceServiceIface) (inp : Bool) (t : ℤ) (sp : ℚ) :
    ∀ (tds : List TokenData) (L : Ledger), LedgerWeakInv L →
      LedgerWeakInv (tds.foldl (fun l td => processTokenSwap ps l td inp t sp) L) := by
  intro tds
  induction tds with
  | nil => intro L h; simpa using h
  | cons td rest ih =>
    intro L h
    simpa using ih (processTokenSwap ps L td inp t sp)
      (processTokenSwap_weakInv ps L td inp t sp h)

theorem processSwap_weakInv (ps : PriceServiceIface) (L : Ledger) (sw : Swap)
    (h : LedgerWeakInv L) : LedgerWeakInv (processSwap ps L sw) := by
  cases hts : sw.timestamp with
  | none => simpa [processSwap, hts] using h
  | some t =>
    by_cases ht0 : t = 0
    · simpa [processSwap, hts, ht0] using h
    · cases hsp : ps.getSolPrice t with
      | none => simpa [processSwap, hts, ht0, hsp] using h
      | some sp =>
        have h1 := foldl_tokens_weakInv ps true t sp sw.tokens_in L h
        have h2 := foldl_tokens_weakInv ps false t sp sw.tokens_out _ h1
        simpa [processSwap, hts, ht0, hsp] using h2

theorem foldl_swaps_weakInv (ps : PriceServiceIface) :
    ∀ (swaps : List Swap) (L : Ledger), LedgerWeakInv L →
      LedgerWeakInv (swaps.foldl (processSwap ps) L) := by
  intro swaps
  induction swaps with
  | nil => intro L h; simpa using h
  | cons sw rest ih =>
    intro L h
    simpa using ih (processSwap ps L sw) (processSwap_weakInv ps L sw h)

theorem ledgerBounded_mono (L : Ledger) (b b' : ℤ) (h : LedgerDatesBounded L b)
    (hb : b ≤ b') : LedgerDatesBounded L b' := by
  intro sym m hm
  obtain ⟨hc, f, l, hf, hl, hfl, hlb⟩ := h sym m hm
  exact ⟨hc, f, l, hf, hl, hfl, by omega⟩

theorem foldl_tokens_bounded (ps : PriceServiceIface) (inp : Bool) (t : ℤ) (sp : ℚ) :
    ∀ (tds : List TokenData) (L : Ledger) (b : ℤ), LedgerDatesBounded L b → b ≤ t →
      LedgerDatesBounded (tds.foldl (fun l td => processTokenSwap ps l td inp t sp) L) t := by
  intro tds
  induction tds with
  | nil => intro L b h hbt; simpa using ledgerBounded_mono L b t h hbt
  | cons td rest ih =>
    intro L b h hbt
    simpa using ih (processTokenSwap ps L td inp t sp) t
      (processTokenSwap_bounded ps L td inp t b sp h hbt) (le_refl t)

theorem processSwap_bounded (ps : PriceServiceIface) (L : Ledger) (sw : Swap)
    (t b : ℤ) (hts : sw.timestamp = some t) (h : LedgerDatesBounded L b) (hbt : b ≤ t) :
    LedgerDatesBounded (processSwap ps L sw) t := by
  by_cases ht0 : t = 0
  · have hstep : processSwap ps L sw = L := by simp [processSwap, hts, ht0]
    rw [hstep]
    exact ledgerBounded_mono L b t h hbt
  · cases hsp : ps.getSolPrice t with
    | none =>
      simp only [processSwap, hts]
      rw [if_neg ht0, hsp]
      exact ledgerBounded_mono L b t h hbt
    | some sp =>
      have h1 := foldl_tokens_bounded ps true t sp sw.tokens_in L b h hbt
      have h2 := foldl_tokens_bounded ps false t sp sw.tokens_out _ t h1 (le_refl t)
      simp only [processSwap, hts]
      rw [if_neg ht0, hsp]
      exact h2

theorem foldl_swaps_bounded (ps : PriceServiceIface) :
    ∀ (swaps : List Swap) (L : Ledger) (b : ℤ),
      LedgerDatesBounded L b →
      (∀ u ∈ swaps.filterMap Swap.timestamp, b ≤ u) →
      List.Pairwise (· ≤ ·) (swaps.filterMap Swap.timestamp) →
      ∃ b', LedgerDatesBounded (swaps.foldl (processSwap ps) L) b' := by
  intro swaps
  induction swaps with
  | nil => intro L b h _ _; exact ⟨b, by simpa using h⟩
  | cons sw rest ih =>
    intro L b h hall hpw
    cases hts : sw.timestamp with
    | none =>
      have hfm : (sw :: rest).filterMap Swap.timestamp = rest.filterMap Swap.timestamp := by
        simp [hts]
      rw [hfm] at hall hpw
      have hstep : processSwap ps L sw = L := by simp [processSwap, hts]
      simpa [hstep] using ih (processSwap ps L sw) b (by rwa [hstep]) hall hpw
    | some u =>
      have hfm : (sw :: rest).filterMap Swap.timestamp =
          u :: rest.filterMap Swap.timestamp := by
        simp [hts]
      rw [hfm] at hall hpw
      have hbu : b ≤ u := hall u (by simp)
      have hbou : LedgerDatesBounded (processSwap ps L sw) u :=
        processSwap_bounded ps L sw u b hts h hbu
      have hall' : ∀ v ∈ rest.filterMap Swap.timestamp, u ≤ v := by
        intro v hv
        exact (List.pairwise_cons.mp hpw).1 v hv
      have hpw' := (List.pairwise_cons.mp hpw).2
      simpa using ih (processSwap ps L sw) u hbou hall' hpw'

theorem pnlUpdatedEntry_count (row : TxRow) (sp : ℚ) (dt : ℤ) (prev : Option PnlEntry) :
    (pnlUpdatedEntry row sp dt prev).trade_count =
      (prev.getD { first_trade_date := dt, last_trade_date := dt }).trade_count + 1 := by
  by_cases h1 : row.token1 ∈ SOLANA_ADDRESSES <;> simp [pnlUpdatedEntry, h1]

theorem pnlUpdatedEntry_last (row : TxRow) (sp : ℚ) (dt : ℤ) (prev : Option PnlEntry) :
    (pnlUpdatedEntry row sp dt prev).last_trade_date = dt := by
  by_cases h1 : row.token1 ∈ SOLANA_ADDRESSES <;> simp [pnlUpdatedEntry, h1]

theorem pnlUpdatedEntry_first (row : TxRow) (sp : ℚ) (dt : ℤ) (prev : Option PnlEntry) :
    (pnlUpdatedEntry row sp dt prev).first_trade_date =
      (prev.getD { first_trade_date := dt, last_trade_date := dt }).first_trade_date := by
  by_cases h1 : row.token1 ∈ SOLANA_ADDRESSES <;> simp [pnlUpdatedEntry, h1]

theorem processTransaction_active_eq (now : ℤ) (spAt : ℤ → Option ℚ) (T : PnlTracker)
    (row : TxRow) (sp : ℚ)
    (hx : ¬(row.token1 ∈ EXCLUDED_TOKENS ∨ row.token2 ∈ EXCLUDED_TOKENS))
    (hns : ¬(row.token1 ∉ SOLANA_ADDRESSES ∧ row.token2 ∉ SOLANA_ADDRESSES))
    (hsp : spAt (roundToNearestHour now row.block_time) = some sp) :
    processTransaction now spAt T row = T.set
      (if row.token1 ∈ SOLANA_ADDRESSES then row.token2 else row.token1)
      (pnlUpdatedEntry row sp (roundToNearestHour now row.block_time)
        (T (if row.token1 ∈ SOLANA_ADDRESSES then row.token2 else row.token1))) := by
  by_cases h1 : row.token1 ∈ SOLANA_ADDRESSES <;>
    cases hT : T (if row.token1 ∈ SOLANA_ADDRESSES then row.token2 else row.token1) <;>
      simp_all [processTransaction, pnlUpdatedEntry]

theorem processTransaction_skip_eq (now : ℤ) (spAt : ℤ → Option ℚ) (T : PnlTracker)
    (row : TxRow)
    (h : (row.token1 ∈ EXCLUDED_TOKENS ∨ row.token2 ∈ EXCLUDED_TOKENS) ∨
         (row.token1 ∉ SOLANA_ADDRESSES ∧ row.token2 ∉ SOLANA_ADDRESSES) ∨
         spAt (roundToNearestHour now row.block_time) = none) :
    processTransaction now spAt T row = T := by
  rcases h with h | h | h
  · simp [processTransaction, h]
  · by_cases hx : row.token1 ∈ EXCLUDED_TOKENS ∨ row.token2 ∈ EXCLUDED_TOKENS
    · simp [processTransaction, hx]
    · simp [processTransaction, hx, h]
  · by_cases hx : row.token1 ∈ EXCLUDED_TOKENS ∨ row.token2 ∈ EXCLUDED_TOKENS
    · simp [processTransaction, hx]
    · by_cases hns : row.token1 ∉ SOLANA_ADDRESSES ∧ row.token2 ∉ SOLANA_ADDRESSES
      · simp [processTransaction, hx, hns]
      · simp [processTransaction, hx, hns, h]

theorem processTransaction_weakInv (now : ℤ) (spAt : ℤ → Option ℚ) (T : PnlTracker)
    (row : TxRow) (h : TrackerWeakInv T) :
    TrackerWeakInv (processTransaction now spAt T row) := by
  by_cases hx : row.token1 ∈ EXCLUDED_TOKENS ∨ row.token2 ∈ EXCLUDED_TOKENS
  · rw [processTransaction_skip_eq now spAt T row (Or.inl hx)]
    exact h
  · by_cases hns : row.token1 ∉ SOLANA_ADDRESSES ∧ row.token2 ∉ SOLANA_ADDRESSES
    · rw [processTransaction_skip_eq now spAt T row (Or.inr (Or.inl hns))]
      exact h
    · cases hsp : spAt (roundToNearestHour now row.block_time) with
      | none =>
        rw [processTransaction_skip_eq now spAt T row (Or.inr (Or.inr hsp))]
        exact h
      | some sp =>
        rw [processTransaction_active_eq now spAt T row sp hx hns hsp]
        intro sym e hm
        simp only [PnlTracker.set] at hm
        by_cases hs : sym = (if row.token1 ∈ SOLANA_ADDRESSES then row.token2 else row.token1)
        · rw [if_pos hs] at hm
          obtain rfl := Option.some.inj hm
          rw [pnlUpdatedEntry_count]
          omega
        · rw [if_neg hs] at hm
          exact h sym e hm

theorem trackerBounded_mono (T : PnlTracker) (b b' : ℤ) (h : TrackerDatesBounded T b)
    (hb : b ≤ b') : TrackerDatesBounded T b' := by
  intro sym e he
  obtain ⟨hc, hfl, hlb⟩ := h sym e he
  exact ⟨hc, hfl, by omega⟩

theorem processTransaction_bounded (now : ℤ) (spAt : ℤ → Option ℚ) (T : PnlTracker)
    (row : TxRow) (b : ℤ) (h : TrackerDatesBounded T b)
    (hbt : b ≤ roundToNearestHour now row.block_time) :
    TrackerDatesBounded (processTransaction now spAt T row)
      (roundToNearestHour now row.block_time) := by
  by_cases hx : row.token1 ∈ EXCLUDED_TOKENS ∨ row.token2 ∈ EXCLUDED_TOKENS
  · rw [processTransaction_skip_eq now spAt T row (Or.inl hx)]
    exact trackerBounded_mono T b _ h hbt
  · by_cases hns : row.token1 ∉ SOLANA_ADDRESSES ∧ row.token2 ∉ SOLANA_ADDRESSES
    · rw [processTransaction_skip_eq now spAt T row (Or.inr (Or.inl hns))]
      exact trackerBounded_mono T b _ h hbt
    · cases hsp : spAt (roundToNearestHour now row.block_time) with
      | none =>
        rw [processTransaction_skip_eq now spAt T row (Or.inr (Or.inr hsp))]
        exact trackerBounded_mono T b _ h hbt
      | some sp =>
        rw [processTransaction_active_eq now spAt T row sp hx hns hsp]
        intro sym e hm
        simp only [PnlTracker.set] at hm
        by_cases hs : sym = (if row.token1 ∈ SOLANA_ADDRESSES then row.token2 else row.token1)
        · rw [if_pos hs] at hm
          obtain rfl := Option.some.inj hm
          rw [pnlUpdatedEntry_count, pnlUpdatedEntry_last, pnlUpdatedEntry_first]
          cases hT : T (if row.token1 ∈ SOLANA_ADDRESSES then row.token2 else row.token1) with
          | none => simp
          | some e0 =>
            obtain ⟨hc, hfl, hlb⟩ := h _ e0 hT
            simp only [Option.getD_some]
            exact ⟨by omega, by omega, le_refl _⟩
        · rw [if_neg hs] at hm
          obtain ⟨hc, hfl, hlb⟩ := h sym e hm
          exact ⟨hc, hfl, by omega⟩

theorem foldl_rows_weakInv (now : ℤ) (spAt : ℤ → Option ℚ) :
    ∀ (rows : List TxRow) (T : PnlTracker), TrackerWeakInv T →
      TrackerWeakInv (rows.foldl (processTransaction now spAt) T) := by
  intro rows
  induction rows with
  | nil => intro T h; simpa using h
  | cons row rest ih =>
    intro T h
    simpa using ih (processTransaction now spAt T row)
      (processTransaction_weakInv now spAt T row h)

theorem foldl_rows_bounded (now : ℤ) (spAt : ℤ → Option ℚ) :
    ∀ (rows : List TxRow) (T : PnlTracker) (b : ℤ),
      TrackerDatesBounded T b →
      (∀ u ∈ rows.map (fun r => roundToNearestHour now r.block_time), b ≤ u) →
      List.Pairwise (· ≤ ·) (rows.map (fun r => roundToNearestHour now r.block_time)) →
      ∃ b', TrackerDatesBounded (rows.foldl (processTransaction now spAt) T) b' := by
  intro rows
  induction rows with
  | nil => intro T b h _ _; exact ⟨b, by simpa using h⟩
  | cons row rest ih =>
    intro T b h hall hpw
    simp only [List.map_cons] at hall hpw
    have hbu : b ≤ roundToNearestHour now row.block_time := hall _ (by simp)
    have hstep := processTransaction_bounded now spAt T row b h hbu
    have hall' : ∀ v ∈ rest.map (fun r => roundToNearestHour now r.block_time),
        roundToNearestHour now row.block_time ≤ v := by
      intro v hv
      exact (List.pairwise_cons.mp hpw).1 v hv
    have hpw' := (List.pairwise_cons.mp hpw).2
    simpa using ih (processTransaction now spAt T row)
      (roundToNearestHour now row.block_time) hstep hall' hpw'

theorem pairwise_headD_le (l : List ℤ) (h : List.Pairwise (· ≤ ·) l) :
    ∀ u ∈ l, l.headD 0 ≤ u := by
  cases l with
  | nil => intro u hu; simp at hu
  | cons a t =>
    intro u hu
    rcases List.mem_cons.mp hu with rfl | hu
    · simp
    · simpa using (List.pairwise_cons.mp h).1 u hu

/-- C10, counterexample: two buy rows with non-decreasing block times
(7200000 ≤ 7201900) near the current time 7202000 produce a tracker entry
with `first_trade_date = 7200000 > last_trade_date = 7196400`, because the
two-hour future-correction of the rounding sends the later row's rounded hour
behind the earlier one's. -/
theorem C10_counterexample :
    (([⟨"So11111111111111111111111111111111111111112", "TOKX", 10, 2, 7200000⟩,
       ⟨"So11111111111111111111111111111111111111112", "TOKX", 10, 2, 7201900⟩] :
        List TxRow).foldl
      (processTransaction 7202000 (fun _ => some 1)) emptyTracker) "TOKX" =
      some { usd_invested := 20, balance := 4, trade_count := 2,
             first_trade_date := 7200000, last_trade_date := 7196400 } ∧
    (7200000 : ℤ) ≤ 7201900 ∧
    ¬((7200000 : ℤ) ≤ 7196400) := by
  refine ⟨?_, by decide, by decide⟩
  simp [processTransaction, emptyTracker, PnlTracker.set, roundToNearestHour,
    EXCLUDED_TOKENS, SOLANA_ADDRESSES]
  norm_num

/-- C10, amended: every MetricsCalculator ledger entry has a positive trade
count and non-null trade dates, and under swaps processed in non-decreasing
timestamp order `first_trade_date ≤ last_trade_date`; every pnl_calculation
tracker entry has a positive trade count, and `first ≤ last` holds whenever
the ROUNDED transaction times are non-decreasing (by the counterexample, the
raw-time ordering of the claim is not sufficient in that path). -/
theorem C10_amended_ledger_invariant :
    (∀ (ps : PriceServiceIface) (swaps : List Swap) (sym : String) (m : TokenMetrics),
      (swaps.foldl (processSwap ps) emptyLedger) sym = some m →
      1 ≤ m.trade_count ∧ m.first_trade_date.isSome ∧ m.last_trade_date.isSome) ∧
    (∀ (ps : PriceServiceIface) (swaps : List Swap),
      List.Pairwise (· ≤ ·) (swaps.filterMap Swap.timestamp) →
      ∀ (sym : String) (m : TokenMetrics),
        (swaps.foldl (processSwap ps) emptyLedger) sym = some m →
        ∃ f l, m.first_trade_date = some f ∧ m.last_trade_date = some l ∧ f ≤ l) ∧
    (∀ (now : ℤ) (spAt : ℤ → Option ℚ) (rows : List TxRow) (sym : String) (e : PnlEntry),
      (rows.foldl (processTransaction now spAt) emptyTracker) sym = some e →
      1 ≤ e.trade_count) ∧
    (∀ (now : ℤ) (spAt : ℤ → Option ℚ) (rows : List TxRow),
      List.Pairwise (· ≤ ·) (rows.map (fun r => roundToNearestHour now r.block_time)) →
      ∀ (sym : String) (e : PnlEntry),
        (rows.foldl (processTransaction now spAt) emptyTracker) sym = some e →
        e.first_trade_date ≤ e.last_trade_date) := by
  refine ⟨?_, ?_, ?_, ?_⟩
  · intro ps swaps sym m hm
    refine foldl_swaps_weakInv ps swaps emptyLedger ?_ sym m hm
    intro s m0 h0
    simp [emptyLedger] at h0
  · intro ps swaps hpw sym m hm
    have hbase : LedgerDatesBounded emptyLedger
        ((swaps.filterMap Swap.timestamp).headD 0) := by
      intro s m0 h0
      simp [emptyLedger] at h0
    obtain ⟨b', hb⟩ := foldl_swaps_bounded ps swaps emptyLedger _ hbase
      (pairwise_headD_le _ hpw) hpw
    obtain ⟨-, f, l, hf, hl, hfl, -⟩ := hb sym m hm
    exact ⟨f, l, hf, hl, hfl⟩
  · intro now spAt rows sym e he
    refine foldl_rows_weakInv now spAt rows emptyTracker ?_ sym e he
    intro s e0 h0
    simp [emptyTracker] at h0
  · intro now spAt rows hpw sym e he
    have hbase : TrackerDatesBounded emptyTracker
        ((rows.map (fun r => roundToNearestHour now r.block_time)).headD 0) := by
      intro s e0 h0
      simp [emptyTracker] at h0
    obtain ⟨b', hb⟩ := foldl_rows_bounded now spAt rows emptyTracker _ hbase
      (pairwise_headD_le _ hpw) hpw
    exact (hb sym e he).2.1

/-- C10, witness: the amended theorem applied to a concrete sorted pair of
swaps. -/
theorem C10_amended_ledger_invariant_witness :
    List.Pairwise (· ≤ ·)
      (([⟨some 5, [⟨1, "A"⟩], []⟩, ⟨some 9, [⟨1, "A"⟩], []⟩] :
          List Swap).filterMap Swap.timestamp) ∧
    (∀ (sym : String) (m : TokenMetrics),
      (([⟨some 5, [⟨1, "A"⟩], []⟩, ⟨some 9, [⟨1, "A"⟩], []⟩] : List Swap).foldl
        (processSwap ⟨fun _ => some 1, fun _ _ => none, fun _ _ => none⟩)
        emptyLedger) sym = some m →
      ∃ f l, m.first_trade_date = some f ∧ m.last_trade_date = some l ∧ f ≤ l) := by
  constructor
  · decide
  · exact C10_amended_ledger_invariant.2.1
      ⟨fun _ => some 1, fun _ _ => none, fun _ _ => none⟩
      [⟨some 5, [⟨1, "A"⟩], []⟩, ⟨some 9, [⟨1, "A"⟩], []⟩] (by decide)
